import Mathlib

/-!
# Verification of the DouDouPaint animation/compositing engine

Shallow embedding of the layered pixel store, the wiggle-pixel entity, the
jitter animator, the frame renderer, the animation loop, and the frame
capture subsystem, translated from the JavaScript sources:

* `src/stores/PixelStore.js`            — class `pixelStore`
* `src/utils/pixels/wigglePixel.js`     — class `WigglePixel` (counter-based
  update variant); `src/utils/animation.js` — the plain `WigglePixel.update`
* `src/utils/brushes/BaseBrush.js`      — `generate3FrameAnimation`
* `src/stores/animation/frameRenderer.js` — class `FrameRenderer` (optimized,
  color-grouping variant)
* `src/stores/animation/animationLoop.js` — class `AnimationLoop` (first,
  frame-skipping variant)
* `FrameCapture.capture3FramesAsImages`  — frame capture with try/finally

JavaScript numbers are modelled as exact rationals `ℚ` (the decimal literals
involved, and the comparisons the claims are about, are structural and do not
hinge on binary floating-point rounding).  JavaScript `Map`s are modelled as
insertion-ordered association lists; since all entities are shared object
references between `activePixels` and the per-layer maps, the object heap is
`activePixels` itself and the per-layer maps are modelled by their key lists.
-/

/-- A pixel id, `pixel_${totalPixelCount}_${Date.now()}` in the source:
the pair of the store counter at creation time and the `Date.now()` value
(the timestamp is an input of `addPixel`, modelling the external clock). -/
abbrev PixelId := Nat × Nat

/-- `getAnimationConfig(penType).updateFrequency` from
`src/utils/pixels/wigglePixel.js` (counter-based variant): pencil 1,
marker 2, spray 1, any other pen type falls back to the pencil config. -/
def updateFrequencyFor (penType : String) : Nat :=
  if penType = "pencil" then 1
  else if penType = "marker" then 2
  else if penType = "spray" then 1
  else 1

/-- The `WigglePixel` entity (`src/utils/pixels/wigglePixel.js`,
`src/utils/animation.js`): position, color, 3-frame offset data, current
frame index, stamp size, opacity, pen type, and the counter used by the
counter-based `update` variant.  The store metadata fields (`id`,
`createdAt`, `isActive`) set by `addPixel` are represented by the map key
and are not read by any modelled operation. -/
structure WigglePixel where
  x : ℚ
  y : ℚ
  color : String
  frameData : List (List (ℚ × ℚ))
  currentFrame : Nat
  size : ℚ
  opacity : ℚ
  penType : String
  frameUpdateCounter : Nat
deriving Repr, DecidableEq

namespace WigglePixel

/-- The `WigglePixel` constructor: `currentFrame = 0`,
`frameUpdateCounter = 0`. -/
def make (x y : ℚ) (color : String) (frameData : List (List (ℚ × ℚ)))
    (size : ℚ) (opacity : ℚ) (penType : String) : WigglePixel :=
  { x := x, y := y, color := color, frameData := frameData,
    currentFrame := 0, size := size, opacity := opacity,
    penType := penType, frameUpdateCounter := 0 }

/-- `update()` from `src/utils/animation.js` (lines 61–63):
`currentFrame = (currentFrame + 1) % frameData.length`. -/
def update (p : WigglePixel) : WigglePixel :=
  { p with currentFrame := (p.currentFrame + 1) % p.frameData.length }

/-- `update()` from `src/utils/pixels/wigglePixel.js` (counter-based
variant): increment `frameUpdateCounter`; once it reaches the pen type's
`updateFrequency`, advance the frame modulo the frame count and reset the
counter. -/
def updateCounted (p : WigglePixel) : WigglePixel :=
  let c := p.frameUpdateCounter + 1
  if c ≥ updateFrequencyFor p.penType then
    { p with currentFrame := (p.currentFrame + 1) % p.frameData.length,
             frameUpdateCounter := 0 }
  else
    { p with frameUpdateCounter := c }

/-- The per-entity frame assignment performed by
`FrameCapture.capture3FramesAsImages`:
`pixel.currentFrame = frameIndex % (pixel.frameData?.length || 3)`
(`|| 3` fires exactly when the frame list is missing or empty). -/
def setCaptureFrame (p : WigglePixel) (frameIndex : Nat) : WigglePixel :=
  { p with currentFrame :=
      frameIndex % (if p.frameData.length = 0 then 3 else p.frameData.length) }

end WigglePixel

/-! ## Insertion-ordered maps (JavaScript `Map`) -/

/-- `Map.set`: replace in place when the key is present, append otherwise. -/
def mapSet (m : List (PixelId × WigglePixel)) (k : PixelId)
    (v : WigglePixel) : List (PixelId × WigglePixel) :=
  match m with
  | [] => [(k, v)]
  | (k₀, v₀) :: rest =>
      if k₀ = k then (k, v) :: rest else (k₀, v₀) :: mapSet rest k v

/-- `Map.get`: the value stored at `k`, if any. -/
def mapFind (m : List (PixelId × WigglePixel)) (k : PixelId) :
    Option WigglePixel :=
  match m with
  | [] => none
  | (k₀, v₀) :: rest => if k₀ = k then some v₀ else mapFind rest k

/-- `Map.delete`: remove the entry with key `k` (keys of a JavaScript `Map`
are unique, so filtering all matches coincides with deleting the entry). -/
def mapDelete (m : List (PixelId × WigglePixel)) (k : PixelId) :
    List (PixelId × WigglePixel) :=
  m.filter (fun e => e.1 ≠ k)

/-- Key-list deletion for the per-layer maps. -/
def keysDelete (l : List PixelId) (k : PixelId) : List PixelId :=
  l.filter (fun i => i ≠ k)

/-! ## The layered pixel store (`src/stores/PixelStore.js`) -/

/-- `config.maxTotalPixels` (PixelStore.js line 23). -/
def maxTotalPixels : Nat := 3000

/-- `config.maxActivePixels` (PixelStore.js line 22; not consulted by
`addPixel`, which gates eviction on `totalPixelCount`). -/
def maxActivePixels : Nat := 1500

/-- The store state.  `activePixels` is the insertion-ordered master map
(and, doubling as the object heap, the owner of the entity data); the three
layer maps hold shared references to the same entities and are therefore
modelled by their insertion-ordered key lists. -/
structure pixelStore where
  markerLayer : List PixelId
  sprayLayer : List PixelId
  pencilLayer : List PixelId
  activePixels : List (PixelId × WigglePixel)
  totalPixelCount : Nat
  dirtyRegions : List (ℚ × ℚ × ℚ × ℚ)
deriving Repr, DecidableEq

namespace pixelStore

/-- The freshly constructed store. -/
def init : pixelStore :=
  { markerLayer := [], sprayLayer := [], pencilLayer := [],
    activePixels := [], totalPixelCount := 0, dirtyRegions := [] }

/-- `this.pixelLayers[penType]` as a key list; `none` models an absent
property (`pixelLayers['eraser']` is `undefined`). -/
def layerKeys (s : pixelStore) (penType : String) : Option (List PixelId) :=
  if penType = "marker" then some s.markerLayer
  else if penType = "spray" then some s.sprayLayer
  else if penType = "pencil" then some s.pencilLayer
  else none

/-- Replace one layer's key list. -/
def setLayerKeys (s : pixelStore) (penType : String) (l : List PixelId) :
    pixelStore :=
  if penType = "marker" then { s with markerLayer := l }
  else if penType = "spray" then { s with sprayLayer := l }
  else if penType = "pencil" then { s with pencilLayer := l }
  else s

/-- `addDirtyRegion(x, y, width, height)`. -/
def addDirtyRegion (s : pixelStore) (x y w h : ℚ) : pixelStore :=
  { s with dirtyRegions := s.dirtyRegions ++ [(x, y, w, h)] }

/-- The guarded layer-map mutation pattern
`if (this.pixelLayers[penType]) { this.pixelLayers[penType] = f(...) }`:
apply `f` to the pen type's key list when that layer map exists, do nothing
otherwise. -/
def updateLayer (s : pixelStore) (penType : String)
    (f : List PixelId → List PixelId) : pixelStore :=
  match s.layerKeys penType with
  | some l => s.setLayerKeys penType (f l)
  | none => s

/-- `removeOldestPixel()`: drop the first-inserted entry of `activePixels`
(`keys().next().value`) and remove it from its pen type's layer map. -/
def removeOldestPixel (s : pixelStore) : pixelStore :=
  match s.activePixels with
  | [] => s
  | (oldestId, pixel) :: rest =>
      ({ s with activePixels := rest } : pixelStore).updateLayer pixel.penType
        (fun l => keysDelete l oldestId)

/-- The arguments of one `addPixel` call.  `brushSize` models
`brushConfig.size || 2` (`none` for a missing property; a present `0` is
falsy in JavaScript and also falls back to `2`).  `now` is the `Date.now()`
reading used in the pixel id. -/
structure AddArgs where
  x : ℚ
  y : ℚ
  color : String
  frameData : List (List (ℚ × ℚ))
  brushSize : Option ℚ
  opacity : ℚ
  penType : String
  now : Nat
deriving Repr, DecidableEq

/-- `brushConfig.size || 2`. -/
def effectiveBrushSize (brushSize : Option ℚ) : ℚ :=
  match brushSize with
  | none => 2
  | some v => if v = 0 then 2 else v

/-- `addPixel` (PixelStore.js lines 44–83): evict the oldest entity when
`totalPixelCount >= config.maxTotalPixels`, build the pixel id from the
counter and the clock, construct the `WigglePixel`, insert it into
`activePixels` and (when the pen type has a layer map) into its layer,
increment the counter, push a dirty region, and return the new id. -/
def addPixel (s : pixelStore) (a : AddArgs) : pixelStore × PixelId :=
  let s₁ := if s.totalPixelCount ≥ maxTotalPixels then s.removeOldestPixel else s
  let pixelId : PixelId := (s₁.totalPixelCount, a.now)
  let pixel := WigglePixel.make a.x a.y a.color a.frameData
    (effectiveBrushSize a.brushSize) a.opacity a.penType
  let s₂ := { s₁ with activePixels := mapSet s₁.activePixels pixelId pixel }
  let s₃ := s₂.updateLayer a.penType (fun l => l ++ [pixelId])
  let s₄ := { s₃ with totalPixelCount := s₃.totalPixelCount + 1 }
  (s₄.addDirtyRegion (a.x - 10) (a.y - 10) 20 20, pixelId)

/-- `clearAllPixels()` (PixelStore.js lines 108–118): empty every map and
reset both `totalPixelCount` and the dirty regions. -/
def clearAllPixels (_s : pixelStore) : pixelStore :=
  { markerLayer := [], sprayLayer := [], pencilLayer := [],
    activePixels := [], totalPixelCount := 0, dirtyRegions := [] }

/-- The eraser hit test of `erasePixelsInArea`.  The source computes
`Math.sqrt(dx*dx + dy*dy) <= radius`; over the reals,
`√s ≤ r ↔ (0 ≤ r ∧ s ≤ r²)` (for `s ≥ 0`), which is the exact decidable
form used here (see `eraseHit_iff_dist_le`). -/
def eraseHit (centerX centerY radius : ℚ) (p : WigglePixel) : Bool :=
  decide (0 ≤ radius ∧
    (p.x - centerX) ^ 2 + (p.y - centerY) ^ 2 ≤ radius ^ 2)

/-- The body of the `pixelsToRemove.forEach` loop of `erasePixelsInArea`:
look the id up (before deleting it), delete it from `activePixels`, and
delete it from its pixel's layer map when that map exists. -/
def eraseStep (acc : pixelStore) (pixelId : PixelId) : pixelStore :=
  match mapFind acc.activePixels pixelId with
  | some pixel =>
      ({ acc with activePixels := mapDelete acc.activePixels pixelId } :
        pixelStore).updateLayer pixel.penType (fun l => keysDelete l pixelId)
  | none => { acc with activePixels := mapDelete acc.activePixels pixelId }

/-- `erasePixelsInArea(centerX, centerY, radius)` (PixelStore.js lines
126–165): collect the ids of the in-range pixels by one pass over
`activePixels`, then run `eraseStep` on each collected id, push a dirty
region when anything was removed, and return the number of removed
pixels. -/
def erasePixelsInArea (s : pixelStore) (centerX centerY radius : ℚ) :
    pixelStore × Nat :=
  let pixelsToRemove :=
    (s.activePixels.filter (fun e => eraseHit centerX centerY radius e.2)).map
      (fun e => e.1)
  let s₁ := pixelsToRemove.foldl eraseStep s
  let s₂ :=
    if pixelsToRemove.length > 0 then
      s₁.addDirtyRegion (centerX - radius - 10) (centerY - radius - 10)
        ((radius + 10) * 2) ((radius + 10) * 2)
    else s₁
  (s₂, pixelsToRemove.length)

/-- `updateActivePixels()` (PixelStore.js lines 172–182): call `update()`
on every active pixel.  The source walks the pixels in batches of 100
purely for garbage-collection friendliness; the state effect is exactly one
`update()` per pixel in insertion order. -/
def updateActivePixels (s : pixelStore) : pixelStore :=
  { s with activePixels := s.activePixels.map (fun e => (e.1, e.2.updateCounted)) }

/-- `getPixelsByLayer(layerType)`: the layer's entities in insertion order
(`pixelLayers[layerType] || new Map()`), resolved through the shared heap. -/
def getPixelsByLayer (s : pixelStore) (layerType : String) :
    List (PixelId × WigglePixel) :=
  match s.layerKeys layerType with
  | some l => l.filterMap (fun i => (mapFind s.activePixels i).map (fun p => (i, p)))
  | none => []

end pixelStore

/-! ## Jitter animator (`src/utils/brushes/BaseBrush.js`) -/

/-- `BaseBrush.generate3FrameAnimation(shape)` (BaseBrush.js lines
190–200): frame 0 is the base shape; frames 1 and 2 translate every offset
by `(∓shakeIntensity, ∓0.2)` — the vertical component is the literal
constant `0.2`, not scaled by the intensity.  A missing or empty shape
yields three empty frames. -/
def generate3FrameAnimation (shape : List (ℚ × ℚ)) (shakeIntensity : ℚ) :
    List (List (ℚ × ℚ)) :=
  if shape.isEmpty then [[], [], []]
  else
    [shape,
     shape.map (fun q => (q.1 - shakeIntensity, q.2 - 0.2)),
     shape.map (fun q => (q.1 + shakeIntensity, q.2 + 0.2))]

/-- Per-tool `shakeIntensity` from `DEFAULT_BRUSH_CONFIG`
(`src/utils/brushes/brushConstants.js`, extended variant): pencil `0.8`,
marker `1.0`, spray `0.6`, eraser `0.0`. -/
def toolShakeIntensity (penType : String) : ℚ :=
  if penType = "pencil" then 0.8
  else if penType = "marker" then 1
  else if penType = "spray" then 0.6
  else 0

/-! ## Frame renderer (`src/stores/animation/frameRenderer.js`,
optimized color-grouping variant) -/

/-- One primitive canvas context operation.  A render pass is modelled as
the exact sequence of such operations it issues, so two passes produce the
same raster output iff they produce the same operation list. -/
inductive CanvasOp where
  | setFillStyle (color : String)
  | setGlobalAlpha (alpha : ℚ)
  | fillRect (x y w h : ℚ)
  | clearRect (x y w h : ℚ)
deriving Repr, DecidableEq

/-- Renderer configuration: canvas size, background color, and the canvas
context's ambient `globalAlpha` (saved and restored around every pixel). -/
structure RenderConfig where
  canvasWidth : ℚ
  canvasHeight : ℚ
  backgroundColor : String
  ambientAlpha : ℚ
deriving Repr, DecidableEq

/-- `clearCanvas()`: clear to nothing when the background is
`"transparent"`, otherwise fill with the background color. -/
def clearCanvas (cfg : RenderConfig) : List CanvasOp :=
  if cfg.backgroundColor = "transparent" then
    [CanvasOp.clearRect 0 0 cfg.canvasWidth cfg.canvasHeight]
  else
    [CanvasOp.setFillStyle cfg.backgroundColor,
     CanvasOp.fillRect 0 0 cfg.canvasWidth cfg.canvasHeight]

/-- The loop body of `groupPixelsByColor`: push the pixel onto its color's
group, creating the group at the end when the color is new. -/
def groupStep (groups : List (String × List (PixelId × WigglePixel)))
    (e : PixelId × WigglePixel) :
    List (String × List (PixelId × WigglePixel)) :=
  if groups.any (fun g => g.1 = e.2.color) then
    groups.map (fun g => if g.1 = e.2.color then (g.1, g.2 ++ [e]) else g)
  else groups ++ [(e.2.color, [e])]

/-- `groupPixelsByColor(pixels)`: a `Map` from color to the pixels of that
color, keys in order of first occurrence, pixels within a group in input
order. -/
def groupPixelsByColor (pixels : List (PixelId × WigglePixel)) :
    List (String × List (PixelId × WigglePixel)) :=
  pixels.foldl groupStep []

/-- `drawPixelOptimized(pixel)`: set the pixel's alpha, fill one
`size × size` rect per offset of the current frame (skipped entirely when
`frameData[currentFrame]` is `undefined`), restore the ambient alpha.
`fillStyle` is set by the caller, once per color group. -/
def drawPixelOptimized (cfg : RenderConfig) (p : WigglePixel) : List CanvasOp :=
  [CanvasOp.setGlobalAlpha p.opacity] ++
  (match p.frameData.get? p.currentFrame with
   | some frame =>
       frame.map (fun d =>
         CanvasOp.fillRect (p.x + d.1 * p.size) (p.y + d.2 * p.size) p.size p.size)
   | none => []) ++
  [CanvasOp.setGlobalAlpha cfg.ambientAlpha]

/-- `renderLayer(pixelStore, layerType)`: nothing for an empty layer;
otherwise set `fillStyle` once per color group and draw the group's pixels
in order. -/
def renderLayer (cfg : RenderConfig) (s : pixelStore) (layerType : String) :
    List CanvasOp :=
  let layerPixels := s.getPixelsByLayer layerType
  if layerPixels.isEmpty then []
  else
    (groupPixelsByColor layerPixels).flatMap
      (fun g => CanvasOp.setFillStyle g.1 ::
        g.2.flatMap (fun e => drawPixelOptimized cfg e.2))

/-- `renderFrame(pixelStore)` (frameRenderer.js lines 52–64): clear the
canvas, then render the layers in the fixed order
`['marker', 'spray', 'pencil']`. -/
def renderFrame (cfg : RenderConfig) (s : pixelStore) : List CanvasOp :=
  clearCanvas cfg ++
  renderLayer cfg s "marker" ++ renderLayer cfg s "spray" ++
  renderLayer cfg s "pencil"

/-- The fill rectangles of a trace, in order — the paint-relevant content
used to compare draw orders. -/
def fillRects (ops : List CanvasOp) : List (ℚ × ℚ × ℚ × ℚ) :=
  ops.filterMap (fun op =>
    match op with
    | CanvasOp.fillRect x y w h => some (x, y, w, h)
    | _ => none)

/-! ## Animation loop (`src/stores/animation/animationLoop.js`, first
variant, lines 8–248) -/

/-- `frameInterval` (animationLoop.js line 19). -/
def frameInterval : Nat := 60

/-- `memoryCleanupThreshold` (animationLoop.js line 28). -/
def memoryCleanupThreshold : Nat := 50

/-- The `AnimationLoop` state fields the modelled methods read or write.
`hasCanvas` stands for `frameRenderer.canvas` being non-null, and
`animationId` for a scheduled (not yet executed) animation frame. -/
structure AnimationLoop where
  isRunning : Bool
  isDestroyed : Bool
  hasCanvas : Bool
  animationId : Bool
  lastFrameTime : Nat
  frameSkipCounter : Nat
  frameSkipThreshold : Nat
  memoryCleanupCounter : Nat
deriving Repr, DecidableEq

/-- The observable effects one `animate()` call issues against the store
and the renderer. -/
inductive TickEffect where
  | advanceAll
  | renderFrame
deriving Repr, DecidableEq

/-- The result of one `animate()` call: the new loop state, the new store
state, the effects issued, and whether a next animation frame was
scheduled. -/
structure TickResult where
  loop : AnimationLoop
  store : pixelStore
  effects : List TickEffect
  scheduled : Bool
deriving Repr, DecidableEq

namespace AnimationLoop

/-- `stop()`: no-op when not running; otherwise clear `isRunning` and
cancel any scheduled animation frame. -/
def stop (l : AnimationLoop) : AnimationLoop :=
  if !l.isRunning then l
  else { l with isRunning := false, animationId := false }

/-- `scheduleNextFrame()`: request the next animation frame when running,
not destroyed, and the canvas exists. -/
def scheduleNextFrame (l : AnimationLoop) : AnimationLoop × Bool :=
  if !l.isRunning || l.isDestroyed || !l.hasCanvas then (l, false)
  else ({ l with animationId := true }, true)

/-- The frame-skip threshold adjustment made after a render that took
`renderTime` milliseconds (animationLoop.js lines 134–138). -/
def adjustThreshold (threshold renderTime : Nat) : Nat :=
  if renderTime > 30 then min 4 (threshold + 1)
  else if renderTime < 15 && threshold > 1 then max 1 (threshold - 1)
  else threshold

/-- `animate()` (animationLoop.js lines 100–163).  `now` is the
`Date.now()` reading and `renderTime` the measured duration of
`renderFrame` (both inputs from the environment).  Stops and issues
nothing when the store holds zero pixels; otherwise advances and
(depending on the skip counter) renders once the logical interval has
elapsed, then schedules the next frame. -/
def animate (l : AnimationLoop) (s : pixelStore) (now renderTime : Nat) :
    TickResult :=
  if !l.isRunning || l.isDestroyed || !l.hasCanvas then
    { loop := l, store := s, effects := [], scheduled := false }
  else if s.activePixels.length = 0 then
    { loop := l.stop, store := s, effects := [], scheduled := false }
  else
    let step :
        AnimationLoop × pixelStore × List TickEffect :=
      if now - l.lastFrameTime ≥ frameInterval then
        let s₁ := s.updateActivePixels
        let skip := l.frameSkipCounter + 1
        let shouldRender := skip ≥ l.frameSkipThreshold
        let l₁ :=
          if shouldRender then
            { l with frameSkipCounter := 0,
                     frameSkipThreshold := adjustThreshold l.frameSkipThreshold renderTime }
          else { l with frameSkipCounter := skip }
        let effs :=
          if shouldRender then [TickEffect.advanceAll, TickEffect.renderFrame]
          else [TickEffect.advanceAll]
        let mc := l₁.memoryCleanupCounter + 1
        let l₂ :=
          if mc ≥ memoryCleanupThreshold then { l₁ with memoryCleanupCounter := 0 }
          else { l₁ with memoryCleanupCounter := mc }
        ({ l₂ with lastFrameTime := now }, s₁, effs)
      else (l, s, [])
    let sched := step.1.scheduleNextFrame
    { loop := sched.1, store := step.2.1, effects := step.2.2,
      scheduled := sched.2 }

/-- `start()` (animationLoop.js lines 52–60): no-op when already running
or destroyed; otherwise set `isRunning`, record the tick time, and run
`animate()` synchronously. -/
def start (l : AnimationLoop) (s : pixelStore) (now renderTime : Nat) :
    TickResult :=
  if l.isRunning || l.isDestroyed then
    { loop := l, store := s, effects := [], scheduled := false }
  else
    animate { l with isRunning := true, lastFrameTime := now } s now renderTime

/-- `checkAndStartAnimation()` (animationLoop.js lines 37–47): when not
destroyed, start if there are pixels and the loop is idle, stop if there
are none and it is running. -/
def checkAndStartAnimation (l : AnimationLoop) (s : pixelStore)
    (now renderTime : Nat) : TickResult :=
  if l.isDestroyed then
    { loop := l, store := s, effects := [], scheduled := false }
  else if s.activePixels.length > 0 && !l.isRunning then
    l.start s now renderTime
  else if s.activePixels.length = 0 && l.isRunning then
    { loop := l.stop, store := s, effects := [], scheduled := false }
  else
    { loop := l, store := s, effects := [], scheduled := false }

end AnimationLoop

/-! ## Frame capture (`FrameCapture.capture3FramesAsImages`) -/

/-- One capture step for frame `frameIndex`: assign every active pixel's
`currentFrame` directly (`frameIndex % (frameData?.length || 3)`). -/
def setPixelsToFrame (s : pixelStore) (frameIndex : Nat) : pixelStore :=
  { s with activePixels :=
      s.activePixels.map (fun e => (e.1, e.2.setCaptureFrame frameIndex)) }

/-- The loop body of `capture3FramesAsImages` for one `frameIndex`: if a
previous frame already failed, keep the error; otherwise assign every
pixel's frame, render, and extract a still, short-circuiting to the error
on extraction failure. -/
def captureStep {σ ε : Type} (cfg : RenderConfig)
    (extract : Nat → List CanvasOp → Except ε σ)
    (acc : Except ε (List σ) × pixelStore) (frameIndex : Nat) :
    Except ε (List σ) × pixelStore :=
  match acc.1 with
  | Except.error e => (Except.error e, acc.2)
  | Except.ok paths =>
      let s₁ := setPixelsToFrame acc.2 frameIndex
      let trace := renderFrame cfg s₁
      match extract frameIndex trace with
      | Except.ok path => (Except.ok (paths ++ [path]), s₁)
      | Except.error e => (Except.error e, s₁)

/-- `capture3FramesAsImages`, generic in the still type `σ` and error type
`ε` of the platform snapshot call (`canvasToTempFile`): record whether the
loop was running and stop it; for each frame index 0, 1, 2 in order, assign
every pixel's frame, render, and extract a still (`extract k trace`
models the snapshot of the canvas after the trace was painted for frame
`k`); on the first extraction failure the whole capture aborts; the
`finally` block restarts the loop exactly when it was running before, and
the error or the full list of stills is surfaced to the caller. -/
def capture3FramesAsImages {σ ε : Type}
    (loop : AnimationLoop) (s : pixelStore) (cfg : RenderConfig)
    (extract : Nat → List CanvasOp → Except ε σ) (now renderTime : Nat) :
    Except ε (List σ) × AnimationLoop × pixelStore :=
  let wasAnimating := loop.isRunning
  let loop₁ := if wasAnimating then loop.stop else loop
  let body :
      Except ε (List σ) × pixelStore :=
    (List.range 3).foldl (captureStep cfg extract) (Except.ok [], s)
  let sFinal := body.2
  if wasAnimating then
    let restarted := loop₁.start sFinal now renderTime
    (body.1, restarted.loop, restarted.store)
  else
    (body.1, loop₁, sFinal)


/-! ## Basic lemmas about the map model and the store operations -/

@[simp]
theorem setLayerKeys_activePixels (s : pixelStore) (pt : String)
    (l : List PixelId) : (s.setLayerKeys pt l).activePixels = s.activePixels := by
  unfold pixelStore.setLayerKeys
  split
  · rfl
  split
  · rfl
  split <;> rfl

@[simp]
theorem setLayerKeys_totalPixelCount (s : pixelStore) (pt : String)
    (l : List PixelId) :
    (s.setLayerKeys pt l).totalPixelCount = s.totalPixelCount := by
  unfold pixelStore.setLayerKeys
  split
  · rfl
  split
  · rfl
  split <;> rfl

@[simp]
theorem updateLayer_activePixels (s : pixelStore) (pt : String)
    (f : List PixelId → List PixelId) :
    (s.updateLayer pt f).activePixels = s.activePixels := by
  unfold pixelStore.updateLayer
  split <;> simp

@[simp]
theorem updateLayer_totalPixelCount (s : pixelStore) (pt : String)
    (f : List PixelId → List PixelId) :
    (s.updateLayer pt f).totalPixelCount = s.totalPixelCount := by
  unfold pixelStore.updateLayer
  split <;> simp

@[simp]
theorem addDirtyRegion_activePixels (s : pixelStore) (x y w h : ℚ) :
    (s.addDirtyRegion x y w h).activePixels = s.activePixels := rfl

@[simp]
theorem addDirtyRegion_totalPixelCount (s : pixelStore) (x y w h : ℚ) :
    (s.addDirtyRegion x y w h).totalPixelCount = s.totalPixelCount := rfl

theorem mapSet_of_fresh (m : List (PixelId × WigglePixel)) (k : PixelId)
    (v : WigglePixel) (h : ∀ e ∈ m, e.1 ≠ k) :
    mapSet m k v = m ++ [(k, v)] := by
  induction m with
  | nil => rfl
  | cons e rest ih =>
      have hne : e.1 ≠ k := h e (List.mem_cons_self e rest)
      cases e with
      | mk k₀ v₀ =>
          simp only [mapSet, if_neg hne]
          rw [ih (fun e he => h e (List.mem_cons_of_mem _ he))]
          rfl

theorem removeOldestPixel_totalPixelCount (s : pixelStore) :
    s.removeOldestPixel.totalPixelCount = s.totalPixelCount := by
  unfold pixelStore.removeOldestPixel
  rcases h : s.activePixels with _ | ⟨⟨id, p⟩, rest⟩ <;> simp [h]

theorem removeOldestPixel_activePixels (s : pixelStore) :
    s.removeOldestPixel.activePixels = s.activePixels.tail := by
  unfold pixelStore.removeOldestPixel
  rcases h : s.activePixels with _ | ⟨⟨id, p⟩, rest⟩ <;> simp [h]

namespace pixelStore

/-- The `WigglePixel` that one `addPixel` call constructs from its
arguments. -/
def newPixelOf (a : AddArgs) : WigglePixel :=
  WigglePixel.make a.x a.y a.color a.frameData
    (effectiveBrushSize a.brushSize) a.opacity a.penType

/-- The ids of the live entities, in insertion order. -/
def pixelIds (s : pixelStore) : List PixelId :=
  s.activePixels.map (fun e => e.1)

end pixelStore

theorem addPixel_snd (s : pixelStore) (a : pixelStore.AddArgs) :
    (s.addPixel a).2 = (s.totalPixelCount, a.now) := by
  unfold pixelStore.addPixel
  dsimp only
  split
  · rw [removeOldestPixel_totalPixelCount]
  · rfl

theorem addPixel_totalPixelCount (s : pixelStore) (a : pixelStore.AddArgs) :
    (s.addPixel a).1.totalPixelCount = s.totalPixelCount + 1 := by
  unfold pixelStore.addPixel
  dsimp only
  split <;> simp [removeOldestPixel_totalPixelCount]

theorem addPixel_activePixels (s : pixelStore) (a : pixelStore.AddArgs)
    (hfresh : ∀ e ∈ s.activePixels, e.1.1 < s.totalPixelCount) :
    (s.addPixel a).1.activePixels =
      (if maxTotalPixels ≤ s.totalPixelCount then s.activePixels.tail
       else s.activePixels) ++
        [((s.totalPixelCount, a.now), pixelStore.newPixelOf a)] := by
  unfold pixelStore.addPixel
  dsimp only
  by_cases hc : maxTotalPixels ≤ s.totalPixelCount
  · rw [if_pos (show s.totalPixelCount ≥ maxTotalPixels from hc), if_pos hc]
    simp only [addDirtyRegion_activePixels, updateLayer_activePixels,
      removeOldestPixel_totalPixelCount]
    rw [mapSet_of_fresh]
    · rw [removeOldestPixel_activePixels]
      rfl
    · intro e he
      rw [removeOldestPixel_activePixels] at he
      have he2 : e ∈ s.activePixels := List.mem_of_mem_tail he
      intro hk
      have := hfresh e he2
      rw [hk] at this
      exact lt_irrefl _ this
  · rw [if_neg (show ¬ s.totalPixelCount ≥ maxTotalPixels from hc), if_neg hc]
    simp only [addDirtyRegion_activePixels, updateLayer_activePixels]
    rw [mapSet_of_fresh]
    · rfl
    · intro e he hk
      have := hfresh e he
      rw [hk] at this
      exact lt_irrefl _ this

/-! ## Sequences of `addPixel` calls (claim C1) -/

namespace pixelStore

/-- One `addPixel` call, keeping only the store (the caller discards the
returned id). -/
def addStep (s : pixelStore) (a : AddArgs) : pixelStore := (s.addPixel a).1

/-- One `addPixel` call, also recording the returned id. -/
def traceStep (acc : pixelStore × List PixelId) (a : AddArgs) :
    pixelStore × List PixelId :=
  ((acc.1.addPixel a).1, acc.2 ++ [(acc.1.addPixel a).2])

/-- The store after a sequence of `addPixel` calls on a fresh store. -/
def runAdds (l : List AddArgs) : pixelStore := l.foldl addStep init

/-- The store after a sequence of `addPixel` calls, together with every id
the calls returned, in call order. -/
def runAddsTrace (l : List AddArgs) : pixelStore × List PixelId :=
  l.foldl traceStep (init, [])

end pixelStore

/-- The invariant maintained by `addPixel`: live ids carry counter values
below the current counter, and the live population is exactly
`min totalPixelCount maxTotalPixels`. -/
def AddInv (s : pixelStore) : Prop :=
  (∀ e ∈ s.activePixels, e.1.1 < s.totalPixelCount) ∧
  s.activePixels.length = min s.totalPixelCount maxTotalPixels

theorem addInv_init : AddInv pixelStore.init := by
  constructor
  · intro e he
    simp [pixelStore.init] at he
  · simp [pixelStore.init]

theorem addPixel_addInv (s : pixelStore) (a : pixelStore.AddArgs)
    (h : AddInv s) : AddInv (s.addPixel a).1 := by
  obtain ⟨hf, hlen⟩ := h
  constructor
  · intro e he
    rw [addPixel_activePixels s a hf] at he
    rw [addPixel_totalPixelCount]
    rcases List.mem_append.mp he with h1 | h1
    · have h2 : e ∈ s.activePixels := by
        by_cases hc : maxTotalPixels ≤ s.totalPixelCount
        · rw [if_pos hc] at h1
          exact List.mem_of_mem_tail h1
        · rwa [if_neg hc] at h1
      exact Nat.lt_succ_of_lt (hf e h2)
    · simp only [List.mem_singleton] at h1
      rw [h1]
      exact Nat.lt_succ_self _
  · rw [addPixel_activePixels s a hf, addPixel_totalPixelCount,
      List.length_append]
    by_cases hc : maxTotalPixels ≤ s.totalPixelCount
    · rw [if_pos hc, List.length_tail, hlen]
      have hm : min s.totalPixelCount maxTotalPixels = maxTotalPixels :=
        min_eq_right hc
      have hm2 : min (s.totalPixelCount + 1) maxTotalPixels = maxTotalPixels :=
        min_eq_right (le_trans hc (Nat.le_succ _))
      rw [hm, hm2]
      norm_num [maxTotalPixels]
    · rw [if_neg hc, hlen]
      have hlt : s.totalPixelCount < maxTotalPixels := lt_of_not_le hc
      have hm : min s.totalPixelCount maxTotalPixels = s.totalPixelCount :=
        min_eq_left (le_of_lt hlt)
      have hm2 : min (s.totalPixelCount + 1) maxTotalPixels =
          s.totalPixelCount + 1 := min_eq_left hlt
      rw [hm, hm2]
      simp

theorem foldl_addStep_addInv (l : List pixelStore.AddArgs) (s : pixelStore)
    (h : AddInv s) : AddInv (l.foldl pixelStore.addStep s) := by
  induction l generalizing s with
  | nil => exact h
  | cons a rest ih => exact ih _ (addPixel_addInv s a h)

theorem runAdds_addInv (l : List pixelStore.AddArgs) :
    AddInv (pixelStore.runAdds l) :=
  foldl_addStep_addInv l pixelStore.init addInv_init

theorem foldl_traceStep_fst (l : List pixelStore.AddArgs)
    (s : pixelStore) (ids : List PixelId) :
    (l.foldl pixelStore.traceStep (s, ids)).1 = l.foldl pixelStore.addStep s := by
  induction l generalizing s ids with
  | nil => rfl
  | cons a rest ih => exact ih _ _

theorem foldl_traceStep_bound (l : List pixelStore.AddArgs)
    (s : pixelStore) (ids : List PixelId)
    (h : ∀ id ∈ ids, id.1 < s.totalPixelCount) :
    ∀ id ∈ (l.foldl pixelStore.traceStep (s, ids)).2,
      id.1 < (l.foldl pixelStore.traceStep (s, ids)).1.totalPixelCount := by
  induction l generalizing s ids with
  | nil => exact h
  | cons a rest ih =>
      refine ih _ _ ?_
      intro id hid
      simp only [pixelStore.traceStep] at hid ⊢
      rw [addPixel_totalPixelCount]
      rcases List.mem_append.mp hid with h1 | h1
      · exact Nat.lt_succ_of_lt (h id h1)
      · simp only [List.mem_singleton] at h1
        rw [h1, addPixel_snd]
        exact Nat.lt_succ_self _

theorem runAddsTrace_fst (l : List pixelStore.AddArgs) :
    (pixelStore.runAddsTrace l).1 = pixelStore.runAdds l :=
  foldl_traceStep_fst l pixelStore.init []

theorem runAddsTrace_bound (l : List pixelStore.AddArgs) :
    ∀ id ∈ (pixelStore.runAddsTrace l).2,
      id.1 < (pixelStore.runAdds l).totalPixelCount := by
  intro id hid
  rw [← runAddsTrace_fst]
  exact foldl_traceStep_bound l pixelStore.init [] (by intro i hi; cases hi) id hid

/-- C1: for every sequence of `addPixel` calls on a fresh store, the live
population stays within `maxTotalPixels` after every call; one more
`addPixel` always succeeds and returns the id `(totalPixelCount, now)`,
which is fresh both among the live entities and among every id previously
returned; and exactly when the live count has reached the cap at the moment
of the call, the single oldest-inserted entity (the head of the store-wide
insertion order) is evicted before the new entity is appended. -/
theorem addPixel_capacity_fifo_eviction (l : List pixelStore.AddArgs)
    (a : pixelStore.AddArgs) :
    (pixelStore.runAdds l).activePixels.length ≤ maxTotalPixels ∧
    ((pixelStore.runAdds l).addPixel a).2 =
      ((pixelStore.runAdds l).totalPixelCount, a.now) ∧
    (∀ e ∈ (pixelStore.runAdds l).activePixels,
      e.1 ≠ ((pixelStore.runAdds l).addPixel a).2) ∧
    ((pixelStore.runAdds l).addPixel a).2 ∉ (pixelStore.runAddsTrace l).2 ∧
    ((pixelStore.runAdds l).addPixel a).1.activePixels =
      (if maxTotalPixels ≤ (pixelStore.runAdds l).activePixels.length
       then (pixelStore.runAdds l).activePixels.tail
       else (pixelStore.runAdds l).activePixels) ++
        [(((pixelStore.runAdds l).totalPixelCount, a.now),
          pixelStore.newPixelOf a)] ∧
    ((pixelStore.runAdds l).addPixel a).1.activePixels.length ≤
      maxTotalPixels := by
  obtain ⟨hf, hlen⟩ := runAdds_addInv l
  refine ⟨?_, addPixel_snd _ a, ?_, ?_, ?_, ?_⟩
  · rw [hlen]
    exact min_le_right _ _
  · intro e he hk
    have h1 := hf e he
    rw [addPixel_snd] at hk
    rw [hk] at h1
    exact lt_irrefl _ h1
  · intro hmem
    rw [addPixel_snd] at hmem
    have := runAddsTrace_bound l _ hmem
    exact lt_irrefl _ this
  · rw [addPixel_activePixels _ a hf]
    by_cases hc : maxTotalPixels ≤ (pixelStore.runAdds l).totalPixelCount
    · rw [if_pos hc, if_pos (by rw [hlen]; rw [min_eq_right hc])]
    · have hneg : ¬ maxTotalPixels ≤ (pixelStore.runAdds l).activePixels.length := by
        rw [hlen]
        intro h2
        exact hc (le_trans h2 (min_le_left _ _))
      rw [if_neg hc, if_neg hneg]
  · have h2 := (addPixel_addInv _ a ⟨hf, hlen⟩).2
    rw [h2]
    exact min_le_right _ _

/-! ## `clearAllPixels` and id uniqueness (claim C3) -/

theorem foldl_traceStep_nodup (l : List pixelStore.AddArgs)
    (s : pixelStore) (ids : List PixelId)
    (hb : ∀ id ∈ ids, id.1 < s.totalPixelCount) (hn : ids.Nodup) :
    (l.foldl pixelStore.traceStep (s, ids)).2.Nodup := by
  induction l generalizing s ids with
  | nil => exact hn
  | cons a rest ih =>
      refine ih _ _ ?_ ?_
      · intro id hid
        simp only [pixelStore.traceStep] at hid ⊢
        rw [addPixel_totalPixelCount]
        rcases List.mem_append.mp hid with h1 | h1
        · exact Nat.lt_succ_of_lt (hb id h1)
        · simp only [List.mem_singleton] at h1
          rw [h1, addPixel_snd]
          exact Nat.lt_succ_self _
      · simp only [pixelStore.traceStep]
        rw [List.nodup_append]
        refine ⟨hn, List.nodup_singleton _, ?_⟩
        intro id hid hid2
        simp only [List.mem_singleton] at hid2
        have h1 := hb id hid
        rw [hid2, addPixel_snd] at h1
        exact lt_irrefl _ h1

/-- C3 (amended): `clearAllPixels` empties every layer map and
`allPixels`, but it also resets the id counter `totalPixelCount` to zero
(rather than leaving it unchanged); the ids returned by any sequence of
`addPixel` calls with no intervening clear are nonetheless pairwise
distinct, because the counter component strictly increases within such a
sequence. -/
theorem clearAllPixels_resets_counter_ids_unique :
    (∀ s : pixelStore,
      (s.clearAllPixels).activePixels = [] ∧
      (s.clearAllPixels).markerLayer = [] ∧
      (s.clearAllPixels).sprayLayer = [] ∧
      (s.clearAllPixels).pencilLayer = [] ∧
      (s.clearAllPixels).totalPixelCount = 0) ∧
    (∀ l : List pixelStore.AddArgs, (pixelStore.runAddsTrace l).2.Nodup) := by
  constructor
  · intro s
    exact ⟨rfl, rfl, rfl, rfl, rfl⟩
  · intro l
    exact foldl_traceStep_nodup l pixelStore.init []
      (by intro id hid; cases hid) List.nodup_nil

/-- C3 (counterexample): on the concrete session "add one pixel, clear,
add another pixel with the same clock reading", `clearAllPixels` resets the
counter from 1 to 0, and the two `addPixel` calls — one before the clear
and one after — return the identical id `(0, 5)`.  This refutes both that
`clear()` leaves the id-generation counter unchanged and that ids stay
distinct across a clear. -/
theorem clearAllPixels_counter_reset_counterexample :
    let argA : pixelStore.AddArgs :=
      ⟨10, 10, "#000000", [[(0, 0)], [(1, 1)], [(-1, -1)]], some 2, 1,
        "pencil", 5⟩
    let r1 := pixelStore.init.addPixel argA
    let s2 := r1.1.clearAllPixels
    let r3 := s2.addPixel argA
    r1.1.totalPixelCount = 1 ∧ s2.totalPixelCount = 0 ∧ r3.2 = r1.2 := by
  refine ⟨by decide, by decide, by decide⟩

/-! ## Lookup lemmas for the map model -/

theorem mapFind_some_mem {m : List (PixelId × WigglePixel)} {k : PixelId}
    {v : WigglePixel} (h : mapFind m k = some v) : (k, v) ∈ m := by
  induction m with
  | nil => simp [mapFind] at h
  | cons e rest ih =>
      cases e with
      | mk k₀ v₀ =>
          by_cases hk : k₀ = k
          · subst hk
            simp only [mapFind, if_true, eq_self_iff_true,
              Option.some.injEq] at h
            subst h
            exact List.mem_cons_self _ _
          · simp only [mapFind, if_neg hk] at h
            exact List.mem_cons_of_mem _ (ih h)

theorem mem_mapFind_of_nodup {m : List (PixelId × WigglePixel)}
    {k : PixelId} {v : WigglePixel} (hmem : (k, v) ∈ m)
    (hn : (m.map (fun e => e.1)).Nodup) : mapFind m k = some v := by
  induction m with
  | nil => cases hmem
  | cons e rest ih =>
      cases e with
      | mk k₀ v₀ =>
          simp only [List.map_cons, List.nodup_cons] at hn
          rcases List.mem_cons.mp hmem with h1 | h1
          · rw [Prod.mk.injEq] at h1
            obtain ⟨h2, h3⟩ := h1
            subst h2
            subst h3
            simp [mapFind]
          · have hk : k₀ ≠ k := by
              intro hk
              subst hk
              exact hn.1 (List.mem_map.mpr ⟨(k₀, v), h1, rfl⟩)
            simp only [mapFind, if_neg hk]
            exact ih h1 hn.2

theorem mapFind_mapValues (m : List (PixelId × WigglePixel)) (k : PixelId)
    (g : WigglePixel → WigglePixel) :
    mapFind (m.map (fun e => (e.1, g e.2))) k = (mapFind m k).map g := by
  induction m with
  | nil => rfl
  | cons e rest ih =>
      cases e with
      | mk k₀ v₀ =>
          by_cases hk : k₀ = k
          · subst hk
            simp [mapFind]
          · simp only [List.map_cons, mapFind, if_neg hk]
            exact ih

theorem mapFind_mapDelete_ne (m : List (PixelId × WigglePixel))
    (k k' : PixelId) (h : k' ≠ k) :
    mapFind (mapDelete m k) k' = mapFind m k' := by
  induction m with
  | nil => rfl
  | cons e rest ih =>
      cases e with
      | mk k₀ v₀ =>
          by_cases hk : k₀ = k
          · subst hk
            have : ¬ (k₀ ≠ k₀) := by simp
            simp only [mapDelete, List.filter_cons]
            rw [if_neg (by simp)]
            rw [show mapDelete rest k₀ = rest.filter (fun e => e.1 ≠ k₀) from rfl] at ih
            rw [ih]
            have hk' : k₀ ≠ k' := fun hh => h hh.symm
            simp only [mapFind, if_neg hk']
          · simp only [mapDelete, List.filter_cons]
            rw [if_pos (by simp [hk])]
            by_cases hk2 : k₀ = k'
            · subst hk2
              simp [mapFind]
            · simp only [mapFind, if_neg hk2]
              exact ih

theorem mapFind_append (m m' : List (PixelId × WigglePixel)) (k : PixelId) :
    mapFind (m ++ m') k =
      match mapFind m k with
      | some v => some v
      | none => mapFind m' k := by
  induction m with
  | nil => rfl
  | cons e rest ih =>
      cases e with
      | mk k₀ v₀ =>
          by_cases hk : k₀ = k
          · subst hk
            simp [mapFind]
          · simp only [List.cons_append, mapFind, if_neg hk]
            exact ih

theorem eraseStep_activePixels (acc : pixelStore) (id : PixelId) :
    (pixelStore.eraseStep acc id).activePixels = mapDelete acc.activePixels id := by
  unfold pixelStore.eraseStep
  split <;> simp

theorem foldl_eraseStep_activePixels (R : List PixelId) (s : pixelStore) :
    (R.foldl pixelStore.eraseStep s).activePixels =
      s.activePixels.filter (fun e => e.1 ∉ R) := by
  induction R generalizing s with
  | nil => simp
  | cons id rest ih =>
      rw [List.foldl_cons, ih, eraseStep_activePixels]
      show (s.activePixels.filter (fun e => e.1 ≠ id)).filter
          (fun e => e.1 ∉ rest) =
        s.activePixels.filter (fun e => e.1 ∉ id :: rest)
      rw [List.filter_filter]
      refine List.filter_congr ?_
      intro e _
      by_cases h1 : e.1 = id
      · simp [h1]
      · by_cases h2 : e.1 ∈ rest <;> simp [h1, h2]

/-! ## The store invariant (claims C2, C5) -/

/-- The structural invariant of the layered store: ids are unique in
`allPixels` and in every layer map, ids carry counter values below the
current counter, every live entity's pen type names one of the three layer
maps and its id is in that map, and every id in a layer map belongs to a
live entity of the matching pen type. -/
structure StoreInv (s : pixelStore) : Prop where
  nodupActive : (s.activePixels.map (fun e => e.1)).Nodup
  nodupMarker : s.markerLayer.Nodup
  nodupSpray : s.sprayLayer.Nodup
  nodupPencil : s.pencilLayer.Nodup
  counterBound : ∀ e ∈ s.activePixels, e.1.1 < s.totalPixelCount
  activeInBucket : ∀ e ∈ s.activePixels,
    (e.2.penType = "marker" ∧ e.1 ∈ s.markerLayer) ∨
    (e.2.penType = "spray" ∧ e.1 ∈ s.sprayLayer) ∨
    (e.2.penType = "pencil" ∧ e.1 ∈ s.pencilLayer)
  markerPen : ∀ id ∈ s.markerLayer,
    ∃ p, mapFind s.activePixels id = some p ∧ p.penType = "marker"
  sprayPen : ∀ id ∈ s.sprayLayer,
    ∃ p, mapFind s.activePixels id = some p ∧ p.penType = "spray"
  pencilPen : ∀ id ∈ s.pencilLayer,
    ∃ p, mapFind s.activePixels id = some p ∧ p.penType = "pencil"

theorem storeInv_init : StoreInv pixelStore.init := by
  refine ⟨?_, ?_, ?_, ?_, ?_, ?_, ?_, ?_, ?_⟩ <;>
    simp [pixelStore.init]

theorem updateLayer_marker (s : pixelStore) (f : List PixelId → List PixelId) :
    s.updateLayer "marker" f = { s with markerLayer := f s.markerLayer } := by
  simp [pixelStore.updateLayer, pixelStore.layerKeys, pixelStore.setLayerKeys]

theorem updateLayer_spray (s : pixelStore) (f : List PixelId → List PixelId) :
    s.updateLayer "spray" f = { s with sprayLayer := f s.sprayLayer } := by
  simp [pixelStore.updateLayer, pixelStore.layerKeys, pixelStore.setLayerKeys]

theorem updateLayer_pencil (s : pixelStore) (f : List PixelId → List PixelId) :
    s.updateLayer "pencil" f = { s with pencilLayer := f s.pencilLayer } := by
  simp [pixelStore.updateLayer, pixelStore.layerKeys, pixelStore.setLayerKeys]

theorem mem_mapDelete {m : List (PixelId × WigglePixel)} {k : PixelId}
    {e : PixelId × WigglePixel} :
    e ∈ mapDelete m k ↔ e ∈ m ∧ e.1 ≠ k := by
  simp [mapDelete, List.mem_filter]

theorem mem_keysDelete {l : List PixelId} {k id : PixelId} :
    id ∈ keysDelete l k ↔ id ∈ l ∧ id ≠ k := by
  simp [keysDelete, List.mem_filter]

theorem nodup_map_fst_mapDelete {m : List (PixelId × WigglePixel)}
    (k : PixelId) (h : (m.map (fun e => e.1)).Nodup) :
    ((mapDelete m k).map (fun e => e.1)).Nodup := by
  have hsub : List.Sublist ((mapDelete m k).map (fun e => e.1))
      (m.map (fun e => e.1)) :=
    List.Sublist.map _ (List.filter_sublist m)
  exact h.sublist hsub

theorem updateCounted_penType (p : WigglePixel) :
    (p.updateCounted).penType = p.penType := by
  unfold WigglePixel.updateCounted
  dsimp only
  split <;> rfl

theorem clearAllPixels_eq_init (s : pixelStore) :
    s.clearAllPixels = pixelStore.init := rfl

theorem updateActivePixels_storeInv (s : pixelStore) (hinv : StoreInv s) :
    StoreInv s.updateActivePixels := by
  obtain ⟨h1, h2, h3, h4, h5, h6, h7, h8, h9⟩ := hinv
  have hkeys : (s.updateActivePixels.activePixels.map (fun e => e.1)) =
      s.activePixels.map (fun e => e.1) := by
    simp [pixelStore.updateActivePixels]
  refine ⟨?_, h2, h3, h4, ?_, ?_, ?_, ?_, ?_⟩
  · rw [hkeys]; exact h1
  · intro e he
    simp only [pixelStore.updateActivePixels, List.mem_map] at he
    obtain ⟨a, ha, rfl⟩ := he
    exact h5 a ha
  · intro e he
    simp only [pixelStore.updateActivePixels, List.mem_map] at he
    obtain ⟨a, ha, rfl⟩ := he
    simpa [updateCounted_penType] using h6 a ha
  · intro id hid
    obtain ⟨p, hp, hpen⟩ := h7 id hid
    refine ⟨p.updateCounted, ?_, by rw [updateCounted_penType]; exact hpen⟩
    show mapFind (s.activePixels.map (fun e => (e.1, e.2.updateCounted))) id = _
    rw [mapFind_mapValues, hp]
    rfl
  · intro id hid
    obtain ⟨p, hp, hpen⟩ := h8 id hid
    refine ⟨p.updateCounted, ?_, by rw [updateCounted_penType]; exact hpen⟩
    show mapFind (s.activePixels.map (fun e => (e.1, e.2.updateCounted))) id = _
    rw [mapFind_mapValues, hp]
    rfl
  · intro id hid
    obtain ⟨p, hp, hpen⟩ := h9 id hid
    refine ⟨p.updateCounted, ?_, by rw [updateCounted_penType]; exact hpen⟩
    show mapFind (s.activePixels.map (fun e => (e.1, e.2.updateCounted))) id = _
    rw [mapFind_mapValues, hp]
    rfl

theorem eraseStep_storeInv (acc : pixelStore) (id : PixelId)
    (hinv : StoreInv acc) : StoreInv (pixelStore.eraseStep acc id) := by
  obtain ⟨h1, h2, h3, h4, h5, h6, h7, h8, h9⟩ := hinv
  unfold pixelStore.eraseStep
  cases hfind : mapFind acc.activePixels id with
  | none =>
      refine ⟨nodup_map_fst_mapDelete id h1, h2, h3, h4, ?_, ?_, ?_, ?_, ?_⟩
      · intro e he
        exact h5 e (mem_mapDelete.mp he).1
      · intro e he
        exact h6 e (mem_mapDelete.mp he).1
      · intro id2 hid2
        obtain ⟨p, hp, hpen⟩ := h7 id2 hid2
        have hne : id2 ≠ id := by
          intro heq
          rw [heq, hfind] at hp
          cases hp
        exact ⟨p, by rw [mapFind_mapDelete_ne _ _ _ hne]; exact hp, hpen⟩
      · intro id2 hid2
        obtain ⟨p, hp, hpen⟩ := h8 id2 hid2
        have hne : id2 ≠ id := by
          intro heq
          rw [heq, hfind] at hp
          cases hp
        exact ⟨p, by rw [mapFind_mapDelete_ne _ _ _ hne]; exact hp, hpen⟩
      · intro id2 hid2
        obtain ⟨p, hp, hpen⟩ := h9 id2 hid2
        have hne : id2 ≠ id := by
          intro heq
          rw [heq, hfind] at hp
          cases hp
        exact ⟨p, by rw [mapFind_mapDelete_ne _ _ _ hne]; exact hp, hpen⟩
  | some p0 =>
      have hmem0 : (id, p0) ∈ acc.activePixels := mapFind_some_mem hfind
      have hother : ∀ id2 p, mapFind acc.activePixels id2 = some p →
          p.penType ≠ p0.penType → id2 ≠ id := by
        intro id2 p hp hpen heq
        rw [heq, hfind] at hp
        injection hp with hp2
        rw [hp2] at hpen
        exact hpen rfl
      show StoreInv
        (({ acc with activePixels := mapDelete acc.activePixels id } :
          pixelStore).updateLayer p0.penType (fun l => keysDelete l id))
      rcases h6 (id, p0) hmem0 with ⟨hpen, _⟩ | ⟨hpen, _⟩ | ⟨hpen, _⟩
      · rw [show p0.penType = "marker" from hpen, updateLayer_marker]
        refine ⟨nodup_map_fst_mapDelete id h1, h2.filter _, h3, h4, ?_, ?_,
          ?_, ?_, ?_⟩
        · intro e he
          exact h5 e (mem_mapDelete.mp he).1
        · intro e he
          obtain ⟨hm, hne⟩ := mem_mapDelete.mp he
          rcases h6 e hm with ⟨hp, hb⟩ | ⟨hp, hb⟩ | ⟨hp, hb⟩
          · exact Or.inl ⟨hp, mem_keysDelete.mpr ⟨hb, hne⟩⟩
          · exact Or.inr (Or.inl ⟨hp, hb⟩)
          · exact Or.inr (Or.inr ⟨hp, hb⟩)
        · intro id2 hid2
          obtain ⟨hb, hne⟩ := mem_keysDelete.mp hid2
          obtain ⟨p, hp, hpen2⟩ := h7 id2 hb
          exact ⟨p, by rw [mapFind_mapDelete_ne _ _ _ hne]; exact hp, hpen2⟩
        · intro id2 hid2
          obtain ⟨p, hp, hpen2⟩ := h8 id2 hid2
          have hne : id2 ≠ id :=
            hother id2 p hp (by rw [hpen2, hpen]; decide)
          exact ⟨p, by rw [mapFind_mapDelete_ne _ _ _ hne]; exact hp, hpen2⟩
        · intro id2 hid2
          obtain ⟨p, hp, hpen2⟩ := h9 id2 hid2
          have hne : id2 ≠ id :=
            hother id2 p hp (by rw [hpen2, hpen]; decide)
          exact ⟨p, by rw [mapFind_mapDelete_ne _ _ _ hne]; exact hp, hpen2⟩
      · rw [show p0.penType = "spray" from hpen, updateLayer_spray]
        refine ⟨nodup_map_fst_mapDelete id h1, h2, h3.filter _, h4, ?_, ?_,
          ?_, ?_, ?_⟩
        · intro e he
          exact h5 e (mem_mapDelete.mp he).1
        · intro e he
          obtain ⟨hm, hne⟩ := mem_mapDelete.mp he
          rcases h6 e hm with ⟨hp, hb⟩ | ⟨hp, hb⟩ | ⟨hp, hb⟩
          · exact Or.inl ⟨hp, hb⟩
          · exact Or.inr (Or.inl ⟨hp, mem_keysDelete.mpr ⟨hb, hne⟩⟩)
          · exact Or.inr (Or.inr ⟨hp, hb⟩)
        · intro id2 hid2
          obtain ⟨p, hp, hpen2⟩ := h7 id2 hid2
          have hne : id2 ≠ id :=
            hother id2 p hp (by rw [hpen2, hpen]; decide)
          exact ⟨p, by rw [mapFind_mapDelete_ne _ _ _ hne]; exact hp, hpen2⟩
        · intro id2 hid2
          obtain ⟨hb, hne⟩ := mem_keysDelete.mp hid2
          obtain ⟨p, hp, hpen2⟩ := h8 id2 hb
          exact ⟨p, by rw [mapFind_mapDelete_ne _ _ _ hne]; exact hp, hpen2⟩
        · intro id2 hid2
          obtain ⟨p, hp, hpen2⟩ := h9 id2 hid2
          have hne : id2 ≠ id :=
            hother id2 p hp (by rw [hpen2, hpen]; decide)
          exact ⟨p, by rw [mapFind_mapDelete_ne _ _ _ hne]; exact hp, hpen2⟩
      · rw [show p0.penType = "pencil" from hpen, updateLayer_pencil]
        refine ⟨nodup_map_fst_mapDelete id h1, h2, h3, h4.filter _, ?_, ?_,
          ?_, ?_, ?_⟩
        · intro e he
          exact h5 e (mem_mapDelete.mp he).1
        · intro e he
          obtain ⟨hm, hne⟩ := mem_mapDelete.mp he
          rcases h6 e hm with ⟨hp, hb⟩ | ⟨hp, hb⟩ | ⟨hp, hb⟩
          · exact Or.inl ⟨hp, hb⟩
          · exact Or.inr (Or.inl ⟨hp, hb⟩)
          · exact Or.inr (Or.inr ⟨hp, mem_keysDelete.mpr ⟨hb, hne⟩⟩)
        · intro id2 hid2
          obtain ⟨p, hp, hpen2⟩ := h7 id2 hid2
          have hne : id2 ≠ id :=
            hother id2 p hp (by rw [hpen2, hpen]; decide)
          exact ⟨p, by rw [mapFind_mapDelete_ne _ _ _ hne]; exact hp, hpen2⟩
        · intro id2 hid2
          obtain ⟨p, hp, hpen2⟩ := h8 id2 hid2
          have hne : id2 ≠ id :=
            hother id2 p hp (by rw [hpen2, hpen]; decide)
          exact ⟨p, by rw [mapFind_mapDelete_ne _ _ _ hne]; exact hp, hpen2⟩
        · intro id2 hid2
          obtain ⟨hb, hne⟩ := mem_keysDelete.mp hid2
          obtain ⟨p, hp, hpen2⟩ := h9 id2 hb
          exact ⟨p, by rw [mapFind_mapDelete_ne _ _ _ hne]; exact hp, hpen2⟩

theorem mapDelete_cons_self {k : PixelId} {v : WigglePixel}
    {rest : List (PixelId × WigglePixel)}
    (h : ∀ e ∈ rest, e.1 ≠ k) : mapDelete ((k, v) :: rest) k = rest := by
  simp only [mapDelete, List.filter_cons]
  rw [if_neg (by simp)]
  exact List.filter_eq_self.mpr (fun e he => by simpa using h e he)

theorem mapFind_eq_none_of_fresh {m : List (PixelId × WigglePixel)}
    {k : PixelId} (h : ∀ e ∈ m, e.1 ≠ k) : mapFind m k = none := by
  induction m with
  | nil => rfl
  | cons e rest ih =>
      cases e with
      | mk k₀ v₀ =>
          have hk : k₀ ≠ k := h (k₀, v₀) (List.mem_cons_self _ _)
          simp only [mapFind, if_neg hk]
          exact ih (fun e he => h e (List.mem_cons_of_mem _ he))

theorem removeOldestPixel_storeInv (s : pixelStore) (hinv : StoreInv s) :
    StoreInv s.removeOldestPixel := by
  rcases h : s.activePixels with _ | ⟨⟨id0, p0⟩, rest⟩
  · have heq : s.removeOldestPixel = s := by
      unfold pixelStore.removeOldestPixel
      rw [h]
    rw [heq]
    exact hinv
  · have hkeys : ∀ e ∈ rest, e.1 ≠ id0 := by
      have hnd := hinv.nodupActive
      rw [h] at hnd
      simp only [List.map_cons, List.nodup_cons] at hnd
      intro e he heq
      exact hnd.1 (List.mem_map.mpr ⟨e, he, heq⟩)
    have heq : s.removeOldestPixel = pixelStore.eraseStep s id0 := by
      unfold pixelStore.removeOldestPixel pixelStore.eraseStep
      rw [h]
      have hfind : mapFind ((id0, p0) :: rest) id0 = some p0 := by
        simp [mapFind]
      rw [hfind, mapDelete_cons_self hkeys]
    rw [heq]
    exact eraseStep_storeInv s id0 hinv

theorem mapFind_append_left {m m' : List (PixelId × WigglePixel)}
    {k : PixelId} {v : WigglePixel} (h : mapFind m k = some v) :
    mapFind (m ++ m') k = some v := by
  rw [mapFind_append, h]

theorem mapFind_append_fresh {m : List (PixelId × WigglePixel)}
    {k : PixelId} {v : WigglePixel} (h : ∀ e ∈ m, e.1 ≠ k) :
    mapFind (m ++ [(k, v)]) k = some v := by
  rw [mapFind_append, mapFind_eq_none_of_fresh h]
  simp [mapFind]

theorem nodup_append_singleton {α : Type} [DecidableEq α] {l : List α}
    {a : α} (h : l.Nodup) (ha : a ∉ l) : (l ++ [a]).Nodup := by
  rw [List.nodup_append]
  refine ⟨h, List.nodup_singleton a, ?_⟩
  intro x hx hx2
  rw [List.mem_singleton] at hx2
  subst hx2
  exact ha hx

theorem addPixel_storeInv (s : pixelStore) (a : pixelStore.AddArgs)
    (hacc : a.penType = "marker" ∨ a.penType = "spray" ∨ a.penType = "pencil")
    (hinv : StoreInv s) : StoreInv (s.addPixel a).1 := by
  have hinv₁ : StoreInv
      (if s.totalPixelCount ≥ maxTotalPixels then s.removeOldestPixel else s) := by
    split
    · exact removeOldestPixel_storeInv s hinv
    · exact hinv
  unfold pixelStore.addPixel
  dsimp only
  generalize hS : (if s.totalPixelCount ≥ maxTotalPixels
    then s.removeOldestPixel else s) = s₁
  rw [hS] at hinv₁
  obtain ⟨h1, h2, h3, h4, h5, h6, h7, h8, h9⟩ := hinv₁
  have hfresh : ∀ e ∈ s₁.activePixels, e.1 ≠ (s₁.totalPixelCount, a.now) := by
    intro e he heq
    have := h5 e he
    rw [heq] at this
    exact lt_irrefl _ this
  have hfreshKey : (s₁.totalPixelCount, a.now) ∉
      s₁.activePixels.map (fun e => e.1) := by
    intro hm
    obtain ⟨e, he, heq⟩ := List.mem_map.mp hm
    exact hfresh e he heq
  have hset : mapSet s₁.activePixels (s₁.totalPixelCount, a.now)
      (WigglePixel.make a.x a.y a.color a.frameData
        (pixelStore.effectiveBrushSize a.brushSize) a.opacity a.penType) =
      s₁.activePixels ++ [((s₁.totalPixelCount, a.now),
        WigglePixel.make a.x a.y a.color a.frameData
          (pixelStore.effectiveBrushSize a.brushSize) a.opacity a.penType)] :=
    mapSet_of_fresh _ _ _ hfresh
  have hfreshMarker : (s₁.totalPixelCount, a.now) ∉ s₁.markerLayer := by
    intro hm
    obtain ⟨p, hp, _⟩ := h7 _ hm
    have := h5 _ (mapFind_some_mem hp)
    exact lt_irrefl _ this
  have hfreshSpray : (s₁.totalPixelCount, a.now) ∉ s₁.sprayLayer := by
    intro hm
    obtain ⟨p, hp, _⟩ := h8 _ hm
    have := h5 _ (mapFind_some_mem hp)
    exact lt_irrefl _ this
  have hfreshPencil : (s₁.totalPixelCount, a.now) ∉ s₁.pencilLayer := by
    intro hm
    obtain ⟨p, hp, _⟩ := h9 _ hm
    have := h5 _ (mapFind_some_mem hp)
    exact lt_irrefl _ this
  have hnodupA : ((s₁.activePixels ++ [((s₁.totalPixelCount, a.now),
      WigglePixel.make a.x a.y a.color a.frameData
        (pixelStore.effectiveBrushSize a.brushSize) a.opacity
        a.penType)]).map (fun e => e.1)).Nodup := by
    rw [List.map_append]
    exact nodup_append_singleton h1 hfreshKey
  have hcntA : ∀ e ∈ s₁.activePixels ++ [((s₁.totalPixelCount, a.now),
      WigglePixel.make a.x a.y a.color a.frameData
        (pixelStore.effectiveBrushSize a.brushSize) a.opacity a.penType)],
      e.1.1 < s₁.totalPixelCount + 1 := by
    intro e he
    rcases List.mem_append.mp he with h' | h'
    · exact Nat.lt_succ_of_lt (h5 e h')
    · rw [List.mem_singleton] at h'
      rw [h']
      exact Nat.lt_succ_self _
  rcases hacc with hpt | hpt | hpt
  · rw [hset, show ∀ (t : pixelStore) (f : List PixelId → List PixelId),
        t.updateLayer a.penType f = { t with markerLayer := f t.markerLayer }
      from fun t f => by rw [hpt]; exact updateLayer_marker t f]
    refine ⟨hnodupA, nodup_append_singleton h2 hfreshMarker, h3, h4, hcntA,
      ?_, ?_, ?_, ?_⟩
    · intro e he
      rcases List.mem_append.mp he with h' | h'
      · rcases h6 e h' with ⟨hp, hb⟩ | ⟨hp, hb⟩ | ⟨hp, hb⟩
        · exact Or.inl ⟨hp, List.mem_append_left _ hb⟩
        · exact Or.inr (Or.inl ⟨hp, hb⟩)
        · exact Or.inr (Or.inr ⟨hp, hb⟩)
      · rw [List.mem_singleton] at h'
        subst h'
        exact Or.inl ⟨hpt,
          List.mem_append_right _ (List.mem_singleton.mpr rfl)⟩
    · intro id hid
      rcases List.mem_append.mp hid with h' | h'
      · obtain ⟨p, hp, hpen⟩ := h7 id h'
        exact ⟨p, mapFind_append_left hp, hpen⟩
      · rw [List.mem_singleton] at h'
        subst h'
        exact ⟨_, mapFind_append_fresh hfresh, hpt⟩
    · intro id hid
      obtain ⟨p, hp, hpen⟩ := h8 id hid
      exact ⟨p, mapFind_append_left hp, hpen⟩
    · intro id hid
      obtain ⟨p, hp, hpen⟩ := h9 id hid
      exact ⟨p, mapFind_append_left hp, hpen⟩
  · rw [hset, show ∀ (t : pixelStore) (f : List PixelId → List PixelId),
        t.updateLayer a.penType f = { t with sprayLayer := f t.sprayLayer }
      from fun t f => by rw [hpt]; exact updateLayer_spray t f]
    refine ⟨hnodupA, h2, nodup_append_singleton h3 hfreshSpray, h4, hcntA,
      ?_, ?_, ?_, ?_⟩
    · intro e he
      rcases List.mem_append.mp he with h' | h'
      · rcases h6 e h' with ⟨hp, hb⟩ | ⟨hp, hb⟩ | ⟨hp, hb⟩
        · exact Or.inl ⟨hp, hb⟩
        · exact Or.inr (Or.inl ⟨hp, List.mem_append_left _ hb⟩)
        · exact Or.inr (Or.inr ⟨hp, hb⟩)
      · rw [List.mem_singleton] at h'
        subst h'
        exact Or.inr (Or.inl ⟨hpt,
          List.mem_append_right _ (List.mem_singleton.mpr rfl)⟩)
    · intro id hid
      obtain ⟨p, hp, hpen⟩ := h7 id hid
      exact ⟨p, mapFind_append_left hp, hpen⟩
    · intro id hid
      rcases List.mem_append.mp hid with h' | h'
      · obtain ⟨p, hp, hpen⟩ := h8 id h'
        exact ⟨p, mapFind_append_left hp, hpen⟩
      · rw [List.mem_singleton] at h'
        subst h'
        exact ⟨_, mapFind_append_fresh hfresh, hpt⟩
    · intro id hid
      obtain ⟨p, hp, hpen⟩ := h9 id hid
      exact ⟨p, mapFind_append_left hp, hpen⟩
  · rw [hset, show ∀ (t : pixelStore) (f : List PixelId → List PixelId),
        t.updateLayer a.penType f = { t with pencilLayer := f t.pencilLayer }
      from fun t f => by rw [hpt]; exact updateLayer_pencil t f]
    refine ⟨hnodupA, h2, h3, nodup_append_singleton h4 hfreshPencil, hcntA,
      ?_, ?_, ?_, ?_⟩
    · intro e he
      rcases List.mem_append.mp he with h' | h'
      · rcases h6 e h' with ⟨hp, hb⟩ | ⟨hp, hb⟩ | ⟨hp, hb⟩
        · exact Or.inl ⟨hp, hb⟩
        · exact Or.inr (Or.inl ⟨hp, hb⟩)
        · exact Or.inr (Or.inr ⟨hp, List.mem_append_left _ hb⟩)
      · rw [List.mem_singleton] at h'
        subst h'
        exact Or.inr (Or.inr ⟨hpt,
          List.mem_append_right _ (List.mem_singleton.mpr rfl)⟩)
    · intro id hid
      obtain ⟨p, hp, hpen⟩ := h7 id hid
      exact ⟨p, mapFind_append_left hp, hpen⟩
    · intro id hid
      obtain ⟨p, hp, hpen⟩ := h8 id hid
      exact ⟨p, mapFind_append_left hp, hpen⟩
    · intro id hid
      rcases List.mem_append.mp hid with h' | h'
      · obtain ⟨p, hp, hpen⟩ := h9 id h'
        exact ⟨p, mapFind_append_left hp, hpen⟩
      · rw [List.mem_singleton] at h'
        subst h'
        exact ⟨_, mapFind_append_fresh hfresh, hpt⟩

theorem keysDelete_not_mem {l : List PixelId} {k : PixelId} (h : k ∉ l) :
    keysDelete l k = l :=
  List.filter_eq_self.mpr (fun i hi => by
    simp only [ne_eq, decide_eq_true_eq]
    intro heq
    subst heq
    exact h hi)

theorem foldl_eraseStep_storeInv (R : List PixelId) (s : pixelStore)
    (hinv : StoreInv s) : StoreInv (R.foldl pixelStore.eraseStep s) := by
  induction R generalizing s with
  | nil => exact hinv
  | cons id rest ih => exact ih _ (eraseStep_storeInv s id hinv)

theorem eraseStep_layers (acc : pixelStore) (id : PixelId)
    (hinv : StoreInv acc) :
    (pixelStore.eraseStep acc id).markerLayer = keysDelete acc.markerLayer id ∧
    (pixelStore.eraseStep acc id).sprayLayer = keysDelete acc.sprayLayer id ∧
    (pixelStore.eraseStep acc id).pencilLayer = keysDelete acc.pencilLayer id := by
  obtain ⟨h1, h2, h3, h4, h5, h6, h7, h8, h9⟩ := hinv
  unfold pixelStore.eraseStep
  cases hfind : mapFind acc.activePixels id with
  | none =>
      have hm : id ∉ acc.markerLayer := fun hmem => by
        obtain ⟨p, hp, _⟩ := h7 id hmem
        rw [hfind] at hp
        cases hp
      have hs : id ∉ acc.sprayLayer := fun hmem => by
        obtain ⟨p, hp, _⟩ := h8 id hmem
        rw [hfind] at hp
        cases hp
      have hp : id ∉ acc.pencilLayer := fun hmem => by
        obtain ⟨p, hp, _⟩ := h9 id hmem
        rw [hfind] at hp
        cases hp
      exact ⟨(keysDelete_not_mem hm).symm, (keysDelete_not_mem hs).symm,
        (keysDelete_not_mem hp).symm⟩
  | some p0 =>
      have hmem0 : (id, p0) ∈ acc.activePixels := mapFind_some_mem hfind
      show ((({ acc with activePixels := mapDelete acc.activePixels id } :
          pixelStore).updateLayer p0.penType (fun l => keysDelete l id)).markerLayer =
          keysDelete acc.markerLayer id) ∧
        ((({ acc with activePixels := mapDelete acc.activePixels id } :
          pixelStore).updateLayer p0.penType (fun l => keysDelete l id)).sprayLayer =
          keysDelete acc.sprayLayer id) ∧
        ((({ acc with activePixels := mapDelete acc.activePixels id } :
          pixelStore).updateLayer p0.penType (fun l => keysDelete l id)).pencilLayer =
          keysDelete acc.pencilLayer id)
      rcases h6 (id, p0) hmem0 with ⟨hpen, _⟩ | ⟨hpen, _⟩ | ⟨hpen, _⟩
      · rw [show p0.penType = "marker" from hpen, updateLayer_marker]
        have hns : id ∉ acc.sprayLayer := fun hmem => by
          obtain ⟨p, hp, hpen2⟩ := h8 id hmem
          rw [hfind] at hp
          injection hp with hp2
          rw [hp2] at hpen
          rw [hpen] at hpen2
          exact absurd hpen2 (by decide)
        have hnp : id ∉ acc.pencilLayer := fun hmem => by
          obtain ⟨p, hp, hpen2⟩ := h9 id hmem
          rw [hfind] at hp
          injection hp with hp2
          rw [hp2] at hpen
          rw [hpen] at hpen2
          exact absurd hpen2 (by decide)
        exact ⟨rfl, (keysDelete_not_mem hns).symm, (keysDelete_not_mem hnp).symm⟩
      · rw [show p0.penType = "spray" from hpen, updateLayer_spray]
        have hnm : id ∉ acc.markerLayer := fun hmem => by
          obtain ⟨p, hp, hpen2⟩ := h7 id hmem
          rw [hfind] at hp
          injection hp with hp2
          rw [hp2] at hpen
          rw [hpen] at hpen2
          exact absurd hpen2 (by decide)
        have hnp : id ∉ acc.pencilLayer := fun hmem => by
          obtain ⟨p, hp, hpen2⟩ := h9 id hmem
          rw [hfind] at hp
          injection hp with hp2
          rw [hp2] at hpen
          rw [hpen] at hpen2
          exact absurd hpen2 (by decide)
        exact ⟨(keysDelete_not_mem hnm).symm, rfl, (keysDelete_not_mem hnp).symm⟩
      · rw [show p0.penType = "pencil" from hpen, updateLayer_pencil]
        have hnm : id ∉ acc.markerLayer := fun hmem => by
          obtain ⟨p, hp, hpen2⟩ := h7 id hmem
          rw [hfind] at hp
          injection hp with hp2
          rw [hp2] at hpen
          rw [hpen] at hpen2
          exact absurd hpen2 (by decide)
        have hns : id ∉ acc.sprayLayer := fun hmem => by
          obtain ⟨p, hp, hpen2⟩ := h8 id hmem
          rw [hfind] at hp
          injection hp with hp2
          rw [hp2] at hpen
          rw [hpen] at hpen2
          exact absurd hpen2 (by decide)
        exact ⟨(keysDelete_not_mem hnm).symm, (keysDelete_not_mem hns).symm, rfl⟩

@[simp]
theorem addDirtyRegion_markerLayer (s : pixelStore) (x y w h : ℚ) :
    (s.addDirtyRegion x y w h).markerLayer = s.markerLayer := rfl

@[simp]
theorem addDirtyRegion_sprayLayer (s : pixelStore) (x y w h : ℚ) :
    (s.addDirtyRegion x y w h).sprayLayer = s.sprayLayer := rfl

@[simp]
theorem addDirtyRegion_pencilLayer (s : pixelStore) (x y w h : ℚ) :
    (s.addDirtyRegion x y w h).pencilLayer = s.pencilLayer := rfl

theorem filter_keysDelete_cons (l : List PixelId) (id : PixelId)
    (R : List PixelId) :
    (keysDelete l id).filter (fun i => i ∉ R) =
      l.filter (fun i => i ∉ id :: R) := by
  show (l.filter _).filter _ = _
  rw [List.filter_filter]
  refine List.filter_congr ?_
  intro i _
  by_cases h1 : i = id
  · simp [h1]
  · by_cases h2 : i ∈ R <;> simp [h1, h2]

theorem foldl_eraseStep_layers (R : List PixelId) (s : pixelStore)
    (hinv : StoreInv s) :
    (R.foldl pixelStore.eraseStep s).markerLayer =
      s.markerLayer.filter (fun i => i ∉ R) ∧
    (R.foldl pixelStore.eraseStep s).sprayLayer =
      s.sprayLayer.filter (fun i => i ∉ R) ∧
    (R.foldl pixelStore.eraseStep s).pencilLayer =
      s.pencilLayer.filter (fun i => i ∉ R) := by
  induction R generalizing s with
  | nil => simp
  | cons id rest ih =>
      obtain ⟨hm, hs2, hp2⟩ := ih (pixelStore.eraseStep s id)
        (eraseStep_storeInv s id hinv)
      obtain ⟨em, es, ep⟩ := eraseStep_layers s id hinv
      refine ⟨?_, ?_, ?_⟩
      · rw [List.foldl_cons, hm, em, filter_keysDelete_cons]
      · rw [List.foldl_cons, hs2, es, filter_keysDelete_cons]
      · rw [List.foldl_cons, hp2, ep, filter_keysDelete_cons]

theorem entry_eq_of_fst_eq {m : List (PixelId × WigglePixel)}
    (hn : (m.map (fun e => e.1)).Nodup) {e e' : PixelId × WigglePixel}
    (he : e ∈ m) (he' : e' ∈ m) (heq : e.1 = e'.1) : e = e' := by
  have h1 : mapFind m e.1 = some e.2 := by
    have : ((e.1, e.2) : PixelId × WigglePixel) ∈ m := by
      cases e
      exact he
    exact mem_mapFind_of_nodup this hn
  have h2 : mapFind m e'.1 = some e'.2 := by
    have : ((e'.1, e'.2) : PixelId × WigglePixel) ∈ m := by
      cases e'
      exact he'
    exact mem_mapFind_of_nodup this hn
  rw [← heq] at h2
  rw [h1] at h2
  injection h2 with h3
  cases e
  cases e'
  simp only at heq h3
  rw [heq, h3]

theorem mem_removedIds_iff (s : pixelStore)
    (hn : (s.activePixels.map (fun e => e.1)).Nodup) (cx cy r : ℚ)
    (e : PixelId × WigglePixel) (he : e ∈ s.activePixels) :
    e.1 ∈ (s.activePixels.filter
        (fun x => pixelStore.eraseHit cx cy r x.2)).map (fun x => x.1) ↔
      pixelStore.eraseHit cx cy r e.2 = true := by
  constructor
  · intro h
    obtain ⟨e', he', heq⟩ := List.mem_map.mp h
    have hmem' := (List.mem_filter.mp he').1
    have hhit := (List.mem_filter.mp he').2
    have : e' = e := entry_eq_of_fst_eq hn hmem' he heq
    rw [← this]
    exact hhit
  · intro h
    exact List.mem_map.mpr ⟨e, List.mem_filter.mpr ⟨he, h⟩, rfl⟩

/-- The decidable eraser test coincides with the spec's Euclidean-distance
test: `Math.sqrt(dx*dx + dy*dy) <= radius` over the reals. -/
theorem eraseHit_iff_dist_le (cx cy r : ℚ) (p : WigglePixel) :
    pixelStore.eraseHit cx cy r p = true ↔
      Real.sqrt (((p.x - cx : ℚ) : ℝ) ^ 2 + ((p.y - cy : ℚ) : ℝ) ^ 2) ≤
        ((r : ℚ) : ℝ) := by
  unfold pixelStore.eraseHit
  simp only [decide_eq_true_eq]
  constructor
  · rintro ⟨hr, hle⟩
    have hrR : (0 : ℝ) ≤ ((r : ℚ) : ℝ) := by exact_mod_cast hr
    have hleR : ((p.x - cx : ℚ) : ℝ) ^ 2 + ((p.y - cy : ℚ) : ℝ) ^ 2 ≤
        ((r : ℚ) : ℝ) ^ 2 := by exact_mod_cast hle
    calc Real.sqrt (((p.x - cx : ℚ) : ℝ) ^ 2 + ((p.y - cy : ℚ) : ℝ) ^ 2)
        ≤ Real.sqrt (((r : ℚ) : ℝ) ^ 2) := Real.sqrt_le_sqrt hleR
      _ = ((r : ℚ) : ℝ) := Real.sqrt_sq hrR
  · intro h
    have hr : (0 : ℝ) ≤ ((r : ℚ) : ℝ) := le_trans (Real.sqrt_nonneg _) h
    have hs : (0 : ℝ) ≤ ((p.x - cx : ℚ) : ℝ) ^ 2 + ((p.y - cy : ℚ) : ℝ) ^ 2 := by
      positivity
    have h2 : ((p.x - cx : ℚ) : ℝ) ^ 2 + ((p.y - cy : ℚ) : ℝ) ^ 2 ≤
        ((r : ℚ) : ℝ) ^ 2 := by
      rw [← Real.sq_sqrt hs]
      exact pow_le_pow_left₀ (Real.sqrt_nonneg _) h 2
    exact ⟨by exact_mod_cast hr, by exact_mod_cast h2⟩

theorem erasePixelsInArea_parts (s : pixelStore) (cx cy r : ℚ) :
    (s.erasePixelsInArea cx cy r).1.activePixels =
      (((s.activePixels.filter (fun e => pixelStore.eraseHit cx cy r e.2)).map
        (fun e => e.1)).foldl pixelStore.eraseStep s).activePixels ∧
    (s.erasePixelsInArea cx cy r).1.markerLayer =
      (((s.activePixels.filter (fun e => pixelStore.eraseHit cx cy r e.2)).map
        (fun e => e.1)).foldl pixelStore.eraseStep s).markerLayer ∧
    (s.erasePixelsInArea cx cy r).1.sprayLayer =
      (((s.activePixels.filter (fun e => pixelStore.eraseHit cx cy r e.2)).map
        (fun e => e.1)).foldl pixelStore.eraseStep s).sprayLayer ∧
    (s.erasePixelsInArea cx cy r).1.pencilLayer =
      (((s.activePixels.filter (fun e => pixelStore.eraseHit cx cy r e.2)).map
        (fun e => e.1)).foldl pixelStore.eraseStep s).pencilLayer ∧
    (s.erasePixelsInArea cx cy r).2 =
      ((s.activePixels.filter (fun e => pixelStore.eraseHit cx cy r e.2)).map
        (fun e => e.1)).length := by
  unfold pixelStore.erasePixelsInArea
  dsimp only
  split <;> exact ⟨by simp, by simp, by simp, by simp, rfl⟩

/-- C2: for every store satisfying the structural invariant,
`erasePixelsInArea(cx, cy, r)` removes exactly the entities whose Euclidean
distance from `(cx, cy)` is at most `r` — the surviving `allPixels` list is
the original one with precisely the in-range entities filtered out (every
other entity is kept untouched, in order), every layer map loses exactly
the removed ids, the returned value is the number of removed entities
(`0` when nothing matches, rather than an error), and the decidable hit
test agrees with the real-valued `√(dx² + dy²) ≤ r`. -/
theorem erasePixelsInArea_removes_exactly_in_range (s : pixelStore)
    (cx cy r : ℚ) (hinv : StoreInv s) :
    (s.erasePixelsInArea cx cy r).1.activePixels =
      s.activePixels.filter (fun e => !(pixelStore.eraseHit cx cy r e.2)) ∧
    (s.erasePixelsInArea cx cy r).1.markerLayer =
      s.markerLayer.filter (fun i =>
        i ∉ (s.activePixels.filter
          (fun e => pixelStore.eraseHit cx cy r e.2)).map (fun e => e.1)) ∧
    (s.erasePixelsInArea cx cy r).1.sprayLayer =
      s.sprayLayer.filter (fun i =>
        i ∉ (s.activePixels.filter
          (fun e => pixelStore.eraseHit cx cy r e.2)).map (fun e => e.1)) ∧
    (s.erasePixelsInArea cx cy r).1.pencilLayer =
      s.pencilLayer.filter (fun i =>
        i ∉ (s.activePixels.filter
          (fun e => pixelStore.eraseHit cx cy r e.2)).map (fun e => e.1)) ∧
    (s.erasePixelsInArea cx cy r).2 =
      (s.activePixels.filter (fun e => pixelStore.eraseHit cx cy r e.2)).length ∧
    ((∀ e ∈ s.activePixels, pixelStore.eraseHit cx cy r e.2 = false) →
      (s.erasePixelsInArea cx cy r).2 = 0) ∧
    (∀ e ∈ s.activePixels, (pixelStore.eraseHit cx cy r e.2 = true ↔
      Real.sqrt (((e.2.x - cx : ℚ) : ℝ) ^ 2 + ((e.2.y - cy : ℚ) : ℝ) ^ 2) ≤
        ((r : ℚ) : ℝ))) := by
  obtain ⟨hact, hmar, hspr, hpen, hcnt⟩ := erasePixelsInArea_parts s cx cy r
  obtain ⟨hlm, hls, hlp⟩ := foldl_eraseStep_layers
    ((s.activePixels.filter (fun e => pixelStore.eraseHit cx cy r e.2)).map
      (fun e => e.1)) s hinv
  refine ⟨?_, ?_, ?_, ?_, ?_, ?_, ?_⟩
  · rw [hact, foldl_eraseStep_activePixels]
    refine List.filter_congr ?_
    intro e he
    have := mem_removedIds_iff s hinv.nodupActive cx cy r e he
    cases hhit : pixelStore.eraseHit cx cy r e.2
    · simp only [Bool.not_false, decide_eq_true_eq]
      rw [hhit] at this
      simp only [Bool.false_eq_true, iff_false] at this
      simpa using this
    · simp only [Bool.not_true]
      rw [hhit] at this
      simp only [iff_true] at this
      simpa using this
  · rw [hmar, hlm]
  · rw [hspr, hls]
  · rw [hpen, hlp]
  · rw [hcnt, List.length_map]
  · intro hall
    rw [hcnt, List.length_map]
    have : s.activePixels.filter (fun e => pixelStore.eraseHit cx cy r e.2) = [] := by
      rw [List.filter_eq_nil_iff]
      intro e he
      rw [hall e he]
      simp
    rw [this]
    rfl
  · intro e _
    exact eraseHit_iff_dist_le cx cy r e.2

/-! ## Operation sequences on the store (claim C5) -/

/-- One public mutation of the layered pixel store. -/
inductive StoreOp where
  | add (a : pixelStore.AddArgs)
  | erase (cx cy r : ℚ)
  | advanceAll
  | clear
deriving Repr, DecidableEq

namespace pixelStore

/-- Run one store operation. -/
def applyOp (s : pixelStore) : StoreOp → pixelStore
  | StoreOp.add a => (s.addPixel a).1
  | StoreOp.erase cx cy r => (s.erasePixelsInArea cx cy r).1
  | StoreOp.advanceAll => s.updateActivePixels
  | StoreOp.clear => s.clearAllPixels

/-- The store after a sequence of operations on a fresh store. -/
def runOps (ops : List StoreOp) : pixelStore := ops.foldl applyOp init

/-- An operation whose layer key is one the store accepts ( `add` with one
of the three layered pen types; the other operations carry no key). -/
def acceptedOp : StoreOp → Prop
  | StoreOp.add a =>
      a.penType = "marker" ∨ a.penType = "spray" ∨ a.penType = "pencil"
  | _ => True

/-- The number of layer maps holding a given id. -/
def bucketCount (s : pixelStore) (id : PixelId) : Nat :=
  (if id ∈ s.markerLayer then 1 else 0) +
  (if id ∈ s.sprayLayer then 1 else 0) +
  (if id ∈ s.pencilLayer then 1 else 0)

end pixelStore

theorem addDirtyRegion_storeInv (s : pixelStore) (x y w h : ℚ)
    (hinv : StoreInv s) : StoreInv (s.addDirtyRegion x y w h) :=
  ⟨hinv.nodupActive, hinv.nodupMarker, hinv.nodupSpray, hinv.nodupPencil,
    hinv.counterBound, hinv.activeInBucket, hinv.markerPen, hinv.sprayPen,
    hinv.pencilPen⟩

theorem erasePixelsInArea_storeInv (s : pixelStore) (cx cy r : ℚ)
    (hinv : StoreInv s) : StoreInv (s.erasePixelsInArea cx cy r).1 := by
  unfold pixelStore.erasePixelsInArea
  dsimp only
  split
  · exact addDirtyRegion_storeInv _ _ _ _ _ (foldl_eraseStep_storeInv _ s hinv)
  · exact foldl_eraseStep_storeInv _ s hinv

theorem applyOp_storeInv (s : pixelStore) (op : StoreOp)
    (hacc : pixelStore.acceptedOp op) (hinv : StoreInv s) :
    StoreInv (s.applyOp op) := by
  cases op with
  | add a => exact addPixel_storeInv s a hacc hinv
  | erase cx cy r => exact erasePixelsInArea_storeInv s cx cy r hinv
  | advanceAll => exact updateActivePixels_storeInv s hinv
  | clear => exact storeInv_init

theorem runOps_storeInv (ops : List StoreOp)
    (hacc : ∀ op ∈ ops, pixelStore.acceptedOp op) :
    StoreInv (pixelStore.runOps ops) := by
  suffices h : ∀ s, StoreInv s → StoreInv (ops.foldl pixelStore.applyOp s) from
    h pixelStore.init storeInv_init
  induction ops with
  | nil => exact fun s hs => hs
  | cons op rest ih =>
      intro s hs
      exact ih (fun o ho => hacc o (List.mem_cons_of_mem _ ho)) _
        (applyOp_storeInv s op (hacc op (List.mem_cons_self _ _)) hs)

theorem storeInv_bucketCount (s : pixelStore) (hinv : StoreInv s) :
    ∀ e ∈ s.activePixels, pixelStore.bucketCount s e.1 = 1 := by
  intro e he
  have hfind : mapFind s.activePixels e.1 = some e.2 := by
    have : ((e.1, e.2) : PixelId × WigglePixel) ∈ s.activePixels := by
      cases e
      exact he
    exact mem_mapFind_of_nodup this hinv.nodupActive
  have hnotOf : ∀ pt : String, e.2.penType ≠ pt →
      (∀ id ∈ (if pt = "marker" then s.markerLayer
        else if pt = "spray" then s.sprayLayer else s.pencilLayer),
        ∃ p, mapFind s.activePixels id = some p ∧ p.penType = pt) →
      e.1 ∉ (if pt = "marker" then s.markerLayer
        else if pt = "spray" then s.sprayLayer else s.pencilLayer) := by
    intro pt hne hcond hmem
    obtain ⟨p, hp, hpen⟩ := hcond e.1 hmem
    rw [hfind] at hp
    injection hp with hp2
    rw [← hp2] at hpen
    exact hne hpen
  rcases hinv.activeInBucket e he with ⟨hp, hb⟩ | ⟨hp, hb⟩ | ⟨hp, hb⟩
  · have hns : e.1 ∉ s.sprayLayer := by
      have := hnotOf "spray" (by rw [hp]; decide) (by simpa using hinv.sprayPen)
      simpa using this
    have hnp : e.1 ∉ s.pencilLayer := by
      have := hnotOf "pencil" (by rw [hp]; decide)
        (by simpa using hinv.pencilPen)
      simpa using this
    unfold pixelStore.bucketCount
    rw [if_pos hb, if_neg hns, if_neg hnp]
  · have hnm : e.1 ∉ s.markerLayer := by
      have := hnotOf "marker" (by rw [hp]; decide)
        (by simpa using hinv.markerPen)
      simpa using this
    have hnp : e.1 ∉ s.pencilLayer := by
      have := hnotOf "pencil" (by rw [hp]; decide)
        (by simpa using hinv.pencilPen)
      simpa using this
    unfold pixelStore.bucketCount
    rw [if_neg hnm, if_pos hb, if_neg hnp]
  · have hnm : e.1 ∉ s.markerLayer := by
      have := hnotOf "marker" (by rw [hp]; decide)
        (by simpa using hinv.markerPen)
      simpa using this
    have hns : e.1 ∉ s.sprayLayer := by
      have := hnotOf "spray" (by rw [hp]; decide) (by simpa using hinv.sprayPen)
      simpa using this
    unfold pixelStore.bucketCount
    rw [if_neg hnm, if_neg hns, if_pos hb]

/-- C5: after any sequence of store operations — adds with an accepted
layer key, area erases, bulk frame advances, and clears — every entity
present in `allPixels` appears in exactly one of the three layer maps. -/
theorem store_entity_in_exactly_one_bucket (ops : List StoreOp)
    (hacc : ∀ op ∈ ops, pixelStore.acceptedOp op) :
    ∀ e ∈ (pixelStore.runOps ops).activePixels,
      pixelStore.bucketCount (pixelStore.runOps ops) e.1 = 1 :=
  storeInv_bucketCount _ (runOps_storeInv ops hacc)

/-! ## Jitter animator theorems (claim C4) -/

/-- C4 (counterexample): no single vertical damping factor `k` makes the
jitter frames read as `(∓intensity, ∓intensity·k)` across the per-tool
intensities actually configured (marker `1.0`, spray `0.6`): frame 1's
vertical offset is the constant `-0.2` for both, which would force
`k = 0.2` against the marker intensity and `k = 1/3` against the spray
intensity.  The code translates by a fixed `(∓intensity, ∓0.2)`. -/
theorem generate3FrameAnimation_vertical_not_proportional :
    ¬ ∃ k : ℚ,
      (generate3FrameAnimation [(0, 0)] (toolShakeIntensity "marker")).get? 1 =
        some [(-(toolShakeIntensity "marker"),
          -(toolShakeIntensity "marker") * k)] ∧
      (generate3FrameAnimation [(0, 0)] (toolShakeIntensity "spray")).get? 1 =
        some [(-(toolShakeIntensity "spray"),
          -(toolShakeIntensity "spray") * k)] := by
  rintro ⟨k, h1, h2⟩
  have e1 : (0 : ℚ) - 0.2 = -(1 : ℚ) * k := by
    have := congrArg (fun o => (o.getD []).map (fun q : ℚ × ℚ => q.2)) h1
    simpa [generate3FrameAnimation, toolShakeIntensity] using this
  have e2 : (0 : ℚ) - 0.2 = -(0.6 : ℚ) * k := by
    have := congrArg (fun o => (o.getD []).map (fun q : ℚ × ℚ => q.2)) h2
    simpa [generate3FrameAnimation, toolShakeIntensity] using this
  rw [e1] at e2
  have : k = 0 := by linarith
  rw [this] at e1
  norm_num at e1

/-- C4 (amended): for every base shape and intensity,
`generate3FrameAnimation` returns exactly 3 frames; frame 0 is the base
shape unchanged, frame 1 translates every offset by `(-intensity, -0.2)`
and frame 2 by `(+intensity, +0.2)` — the vertical offset is the fixed
constant `0.2`, not proportional to the intensity; each frame has as many
offsets as the shape, and the empty shape yields three empty frames. -/
theorem generate3FrameAnimation_spec (shape : List (ℚ × ℚ)) (i : ℚ) :
    (generate3FrameAnimation shape i).length = 3 ∧
    (shape = [] → generate3FrameAnimation shape i = [[], [], []]) ∧
    (generate3FrameAnimation shape i).get? 0 = some shape ∧
    (generate3FrameAnimation shape i).get? 1 =
      some (shape.map (fun q => (q.1 - i, q.2 - 0.2))) ∧
    (generate3FrameAnimation shape i).get? 2 =
      some (shape.map (fun q => (q.1 + i, q.2 + 0.2))) ∧
    (∀ fr ∈ generate3FrameAnimation shape i, fr.length = shape.length) := by
  by_cases h : shape = []
  · subst h
    refine ⟨rfl, fun _ => rfl, rfl, rfl, rfl, ?_⟩
    intro fr hfr
    fin_cases hfr <;> rfl
  · have hne : ¬ shape.isEmpty := by
      cases shape
      · exact absurd rfl h
      · simp
    refine ⟨?_, fun h2 => absurd h2 h, ?_, ?_, ?_, ?_⟩ <;>
      simp only [generate3FrameAnimation, if_neg hne]
    · rfl
    · rfl
    · rfl
    · rfl
    · intro fr hfr
      fin_cases hfr <;> simp

/-! ## Color-grouping lemmas (claim C6) -/

theorem groupPixelsByColor_append (l : List (PixelId × WigglePixel))
    (e : PixelId × WigglePixel) :
    groupPixelsByColor (l ++ [e]) = groupStep (groupPixelsByColor l) e := by
  simp [groupPixelsByColor, List.foldl_append]

theorem groupPixelsByColor_spec (l : List (PixelId × WigglePixel)) :
    ((groupPixelsByColor l).map (fun g => g.1)).Nodup ∧
    (∀ g ∈ groupPixelsByColor l,
      g.2 = l.filter (fun e => e.2.color = g.1)) ∧
    (∀ e ∈ l, ∃ g ∈ groupPixelsByColor l, g.1 = e.2.color) := by
  induction l using List.reverseRecOn with
  | nil =>
      refine ⟨by simp [groupPixelsByColor], ?_, by simp⟩
      intro g hg
      simp [groupPixelsByColor] at hg
  | append_singleton l e ih =>
      obtain ⟨hnd, hflt, hcmp⟩ := ih
      rw [groupPixelsByColor_append]
      unfold groupStep
      by_cases hany : (groupPixelsByColor l).any (fun g => g.1 = e.2.color)
      · rw [if_pos hany]
        refine ⟨?_, ?_, ?_⟩
        · have hkeys : ((groupPixelsByColor l).map (fun g =>
              if g.1 = e.2.color then (g.1, g.2 ++ [e]) else g)).map
                (fun g => g.1) =
              (groupPixelsByColor l).map (fun g => g.1) := by
            rw [List.map_map]
            refine List.map_congr_left ?_
            intro g _
            by_cases h : g.1 = e.2.color <;> simp [h]
          rw [hkeys]
          exact hnd
        · intro g2 hg2
          obtain ⟨g, hg, rfl⟩ := List.mem_map.mp hg2
          by_cases h : g.1 = e.2.color
          · rw [if_pos h]
            show g.2 ++ [e] = (l ++ [e]).filter _
            rw [List.filter_append, ← hflt g hg]
            congr 1
            have he2 : e.2.color = g.1 := h.symm
            simp [List.filter_singleton, he2]
          · rw [if_neg h]
            show g.2 = (l ++ [e]).filter (fun x => x.2.color = g.1)
            rw [List.filter_append, ← hflt g hg]
            have hne : ¬ e.2.color = g.1 := fun heq => h heq.symm
            simp [List.filter_singleton, hne]
        · intro e2 he2
          rcases List.mem_append.mp he2 with h2 | h2
          · obtain ⟨g, hg, hcol⟩ := hcmp e2 h2
            refine ⟨if g.1 = e.2.color then (g.1, g.2 ++ [e]) else g,
              List.mem_map.mpr ⟨g, hg, rfl⟩, ?_⟩
            by_cases h : g.1 = e.2.color <;> simp [h, ← hcol]
          · rw [List.mem_singleton] at h2
            rw [h2]
            obtain ⟨g, hg, hcol⟩ := List.any_eq_true.mp hany
            rw [decide_eq_true_eq] at hcol
            refine ⟨(g.1, g.2 ++ [e]),
              List.mem_map.mpr ⟨g, hg, by rw [if_pos hcol]⟩, hcol⟩
      · rw [if_neg hany]
        have hnone : ∀ g ∈ groupPixelsByColor l, g.1 ≠ e.2.color := by
          intro g hg heq
          exact hany (List.any_eq_true.mpr ⟨g, hg, by simp [heq]⟩)
        have hlnone : l.filter (fun x => x.2.color = e.2.color) = [] := by
          rw [List.filter_eq_nil_iff]
          intro e2 he2
          obtain ⟨g, hg, hcol⟩ := hcmp e2 he2
          rw [decide_eq_true_eq]
          intro heq
          exact hnone g hg (by rw [hcol, heq])
        refine ⟨?_, ?_, ?_⟩
        · rw [List.map_append]
          exact nodup_append_singleton hnd (fun hm => by
            obtain ⟨g, hg, heq⟩ := List.mem_map.mp hm
            exact hnone g hg heq)
        · intro g2 hg2
          rcases List.mem_append.mp hg2 with h2 | h2
          · rw [List.filter_append, ← hflt g2 h2]
            have hne : ¬ e.2.color = g2.1 := fun heq => hnone g2 h2 heq.symm
            simp [List.filter_singleton, hne]
          · rw [List.mem_singleton] at h2
            rw [h2]
            show [e] = (l ++ [e]).filter (fun x => x.2.color = e.2.color)
            rw [List.filter_append, hlnone]
            simp
        · intro e2 he2
          rcases List.mem_append.mp he2 with h2 | h2
          · obtain ⟨g, hg, hcol⟩ := hcmp e2 h2
            exact ⟨g, List.mem_append_left _ hg, hcol⟩
          · rw [List.mem_singleton] at h2
            rw [h2]
            exact ⟨(e.2.color, [e]),
              List.mem_append_right _ (List.mem_singleton.mpr rfl), rfl⟩

theorem flatMap_update_perm (G : List (String × List (PixelId × WigglePixel)))
    (e : PixelId × WigglePixel)
    (hnd : (G.map (fun g => g.1)).Nodup)
    (hany : G.any (fun g => g.1 = e.2.color) = true) :
    ((G.map (fun g => if g.1 = e.2.color then (g.1, g.2 ++ [e]) else g)).flatMap
        (fun g => g.2)).Perm
      (G.flatMap (fun g => g.2) ++ [e]) := by
  induction G with
  | nil => simp at hany
  | cons g rest ih =>
      simp only [List.map_cons, List.flatMap_cons, List.map_cons] at hnd ⊢
      rw [List.nodup_cons] at hnd
      by_cases h : g.1 = e.2.color
      · rw [if_pos h]
        have hrest : rest.map (fun g2 =>
            if g2.1 = e.2.color then (g2.1, g2.2 ++ [e]) else g2) = rest := by
          have hid : ∀ g2 ∈ rest,
              (if g2.1 = e.2.color then (g2.1, g2.2 ++ [e]) else g2) = g2 := by
            intro g2 hg2
            rw [if_neg]
            intro heq
            rw [← h] at heq
            exact hnd.1 (List.mem_map.mpr ⟨g2, hg2, heq⟩)
          rw [List.map_congr_left hid]
          simp
        rw [hrest]
        dsimp only
        rw [List.append_assoc, List.append_assoc]
        exact List.Perm.append_left g.2 (List.perm_append_comm)
      · rw [if_neg h]
        have hany2 : rest.any (fun g2 => g2.1 = e.2.color) = true := by
          simp only [List.any_cons, h, decide_False, Bool.false_or] at hany
          exact hany
        have := ih hnd.2 hany2
        rw [List.append_assoc]
        exact List.Perm.append_left g.2 this

theorem groupPixelsByColor_flatMap_perm (l : List (PixelId × WigglePixel)) :
    ((groupPixelsByColor l).flatMap (fun g => g.2)).Perm l := by
  induction l using List.reverseRecOn with
  | nil => simp [groupPixelsByColor]
  | append_singleton l e ih =>
      rw [groupPixelsByColor_append]
      unfold groupStep
      by_cases hany : (groupPixelsByColor l).any (fun g => g.1 = e.2.color)
      · rw [if_pos hany]
        refine List.Perm.trans
          (flatMap_update_perm _ e (groupPixelsByColor_spec l).1 hany) ?_
        exact ih.append_right [e]
      · rw [if_neg hany]
        rw [List.flatMap_append]
        simp only [List.flatMap_cons, List.flatMap_nil, List.append_nil]
        exact ih.append_right [e]

/-- C6 (counterexample): with three pencil-layer entities inserted in the
order red, blue, red, the optimized renderer draws the two red entities
first and the blue one last: the per-entity draw sequence the layer pass
emits (the concatenation of its color groups) is red₁, red₂, blue — not
the insertion order red₁, blue, red₂ — so the claim's "drawing the
entities within each layer in insertion order" is false on this store. -/
theorem renderLayer_not_insertion_order :
    let px := fun (x : ℚ) (c : String) =>
      WigglePixel.make x 0 c [[(0, 0)]] 1 1 "pencil"
    let cs6 : pixelStore :=
      { markerLayer := [], sprayLayer := [],
        pencilLayer := [(0, 0), (1, 0), (2, 0)],
        activePixels := [((0, 0), px 0 "#FF0000"), ((1, 0), px 10 "#0000FF"),
          ((2, 0), px 20 "#FF0000")],
        totalPixelCount := 3, dirtyRegions := [] }
    let cfg : RenderConfig := ⟨100, 100, "transparent", 1⟩
    renderLayer cfg cs6 "pencil" =
      (groupPixelsByColor (cs6.getPixelsByLayer "pencil")).flatMap
        (fun g => CanvasOp.setFillStyle g.1 ::
          g.2.flatMap (fun e => drawPixelOptimized cfg e.2)) ∧
    (groupPixelsByColor (cs6.getPixelsByLayer "pencil")).flatMap
        (fun g => g.2.map (fun e => e.1)) = [(0, 0), (2, 0), (1, 0)] ∧
    (cs6.getPixelsByLayer "pencil").map (fun e => e.1) =
      [(0, 0), (1, 0), (2, 0)] ∧
    (groupPixelsByColor (cs6.getPixelsByLayer "pencil")).flatMap
        (fun g => g.2) ≠
      cs6.getPixelsByLayer "pencil" := by
  exact ⟨rfl, by decide, by decide, by decide⟩

/-- C6 (amended): every composite pass first clears the surface — a bare
clear when the background is `"transparent"`, otherwise a fill with the
background color — and then paints the layers in the fixed bottom-to-top
order marker, spray, pencil.  Within each layer the entities are drawn
grouped by color: the colors appear in first-insertion order, each group
lists its entities in insertion order (the group is exactly the in-order
filter of the layer by that color), and every layer entity is drawn
exactly once (the concatenation of the groups is a permutation of the
layer).  Compositing is a pure function of the store, so compositing the
same store twice with no mutation in between produces identical output. -/
theorem renderFrame_spec (cfg : RenderConfig) (s : pixelStore) :
    renderFrame cfg s =
      clearCanvas cfg ++ renderLayer cfg s "marker" ++
        renderLayer cfg s "spray" ++ renderLayer cfg s "pencil" ∧
    clearCanvas cfg =
      (if cfg.backgroundColor = "transparent" then
        [CanvasOp.clearRect 0 0 cfg.canvasWidth cfg.canvasHeight]
      else
        [CanvasOp.setFillStyle cfg.backgroundColor,
          CanvasOp.fillRect 0 0 cfg.canvasWidth cfg.canvasHeight]) ∧
    (∀ lt, renderLayer cfg s lt =
      if (s.getPixelsByLayer lt).isEmpty then []
      else (groupPixelsByColor (s.getPixelsByLayer lt)).flatMap
        (fun g => CanvasOp.setFillStyle g.1 ::
          g.2.flatMap (fun e => drawPixelOptimized cfg e.2))) ∧
    (∀ lt, ∀ g ∈ groupPixelsByColor (s.getPixelsByLayer lt),
      g.2 = (s.getPixelsByLayer lt).filter (fun e => e.2.color = g.1)) ∧
    (∀ lt, ((groupPixelsByColor (s.getPixelsByLayer lt)).flatMap
      (fun g => g.2)).Perm (s.getPixelsByLayer lt)) := by
  refine ⟨rfl, rfl, fun lt => rfl, ?_, ?_⟩
  · intro lt g hg
    exact (groupPixelsByColor_spec _).2.1 g hg
  · intro lt
    exact groupPixelsByColor_flatMap_perm _

/-! ## Frame-capture lemmas (claims C7, C8) -/

theorem setCaptureFrame_setCaptureFrame (p : WigglePixel) (j k : Nat) :
    (p.setCaptureFrame j).setCaptureFrame k = p.setCaptureFrame k := rfl

theorem setPixelsToFrame_setPixelsToFrame (s : pixelStore) (j k : Nat) :
    setPixelsToFrame (setPixelsToFrame s j) k = setPixelsToFrame s k := by
  simp only [setPixelsToFrame, List.map_map]
  congr 1

theorem setPixelsToFrame_length (s : pixelStore) (k : Nat) :
    (setPixelsToFrame s k).activePixels.length = s.activePixels.length := by
  simp [setPixelsToFrame]

theorem captureStep_error {σ ε : Type} (cfg : RenderConfig)
    (extract : Nat → List CanvasOp → Except ε σ) (e : ε) (s2 : pixelStore)
    (k : Nat) :
    captureStep cfg extract (Except.error e, s2) k = (Except.error e, s2) := rfl

theorem captureStep_ok {σ ε : Type} (cfg : RenderConfig)
    (extract : Nat → List CanvasOp → Except ε σ) (paths : List σ)
    (s2 : pixelStore) (k : Nat) :
    captureStep cfg extract (Except.ok paths, s2) k =
      (match extract k (renderFrame cfg (setPixelsToFrame s2 k)) with
       | Except.ok path =>
           (Except.ok (paths ++ [path]), setPixelsToFrame s2 k)
       | Except.error e => (Except.error e, setPixelsToFrame s2 k)) := rfl

theorem captureStep_length {σ ε : Type} (cfg : RenderConfig)
    (extract : Nat → List CanvasOp → Except ε σ)
    (acc : Except ε (List σ) × pixelStore) (k : Nat) :
    (captureStep cfg extract acc k).2.activePixels.length =
      acc.2.activePixels.length := by
  obtain ⟨r, s2⟩ := acc
  cases r with
  | error e => rfl
  | ok paths =>
      rw [captureStep_ok]
      cases hx : extract k (renderFrame cfg (setPixelsToFrame s2 k)) with
      | ok path => simp [setPixelsToFrame_length]
      | error e => simp [setPixelsToFrame_length]

theorem foldl_captureStep_length {σ ε : Type} (cfg : RenderConfig)
    (extract : Nat → List CanvasOp → Except ε σ) (lst : List Nat)
    (acc : Except ε (List σ) × pixelStore) :
    ((lst.foldl (captureStep cfg extract) acc).2).activePixels.length =
      acc.2.activePixels.length := by
  induction lst generalizing acc with
  | nil => rfl
  | cons k rest ih => rw [List.foldl_cons, ih, captureStep_length]

theorem stop_isRunning (l : AnimationLoop) : (l.stop).isRunning = false := by
  unfold AnimationLoop.stop
  split <;> simp_all

theorem start_isRunning_of_pixels (l : AnimationLoop) (s2 : pixelStore)
    (now rt : Nat) (hr : l.isRunning = false) (hd : l.isDestroyed = false)
    (hc : l.hasCanvas = true) (hcount : s2.activePixels.length ≠ 0) :
    ((l.start s2 now rt).loop).isRunning = true := by
  unfold AnimationLoop.start AnimationLoop.animate AnimationLoop.scheduleNextFrame
  simp [hr, hd, hc, hcount, frameInterval]

theorem stop_isDestroyed (l : AnimationLoop) :
    (l.stop).isDestroyed = l.isDestroyed := by
  unfold AnimationLoop.stop
  split <;> rfl

theorem stop_hasCanvas (l : AnimationLoop) :
    (l.stop).hasCanvas = l.hasCanvas := by
  unfold AnimationLoop.stop
  split <;> rfl

/-- C7 (counterexample): on a store holding one entity with a two-frame
offset list, the capture's direct assignment for frameIndex 2 sets
`currentFrame = 2 % 2 = 0`, not `2 mod 3 = 2`: the assignment is modulo the
entity's own frame count (`frameData?.length || 3`), not modulo 3. -/
theorem setPixelsToFrame_not_mod_three :
    let px2 : WigglePixel :=
      WigglePixel.make 0 0 "#000000" [[(0, 0)], [(1, 1)]] 1 1 "pencil"
    let cs7 : pixelStore :=
      { markerLayer := [], sprayLayer := [], pencilLayer := [(0, 0)],
        activePixels := [((0, 0), px2)], totalPixelCount := 1,
        dirtyRegions := [] }
    ((setPixelsToFrame cs7 2).activePixels.map
      (fun e => e.2.currentFrame)) = [0] ∧
    (2 : Nat) % 3 = 2 ∧ ¬ ((0 : Nat) = 2) := by
  exact ⟨by decide, by decide, by decide⟩

/-- C7 (amended): during a 3-frame capture the frames are processed
strictly in the order 0, 1, 2; for each frame index the capture assigns
`currentFrame = frameIndex mod the entity's own frame count` (falling back
to 3 when the frame list is missing or empty) directly on every entity —
the assignment is absolute, so consecutive assignments overwrite rather
than accumulate — then composites and extracts a still, and when every
extraction succeeds the returned list holds the stills in frame order
0, 1, 2. -/
theorem capture3Frames_order_spec {σ ε : Type} (loop : AnimationLoop)
    (s : pixelStore) (cfg : RenderConfig)
    (extract : Nat → List CanvasOp → Except ε σ) (now renderTime : Nat)
    (st : Nat → σ)
    (hok : ∀ k, k < 3 →
      extract k (renderFrame cfg (setPixelsToFrame s k)) = Except.ok (st k)) :
    (capture3FramesAsImages loop s cfg extract now renderTime).1 =
      Except.ok [st 0, st 1, st 2] ∧
    (∀ k, (setPixelsToFrame s k).activePixels =
      s.activePixels.map (fun e => (e.1, { e.2 with currentFrame :=
        k % (if e.2.frameData.length = 0 then 3
             else e.2.frameData.length) }))) ∧
    (∀ j k, setPixelsToFrame (setPixelsToFrame s j) k =
      setPixelsToFrame s k) := by
  refine ⟨?_, fun k => rfl,
    fun j k => setPixelsToFrame_setPixelsToFrame s j k⟩
  have h0 := hok 0 (by norm_num)
  have h1 := hok 1 (by norm_num)
  have h2 := hok 2 (by norm_num)
  unfold capture3FramesAsImages
  rw [show List.range 3 = [0, 1, 2] from rfl]
  simp only [List.foldl_cons, List.foldl_nil, captureStep_ok,
    setPixelsToFrame_setPixelsToFrame, h0, h1, h2]
  split <;> rfl

/-- C8: if still extraction fails on any one frame, the whole capture
aborts — the result is the error of the first failing frame, with no
partial list of stills — and the `finally` block leaves the Animation Loop
running exactly when it was running before the capture began, so the error
is surfaced to the caller with the loop state restored first. -/
theorem capture3Frames_failure_aborts_restores {σ ε : Type}
    (loop : AnimationLoop) (s : pixelStore) (cfg : RenderConfig)
    (extract : Nat → List CanvasOp → Except ε σ) (now renderTime : Nat)
    (hwf : loop.isRunning = true →
      loop.isDestroyed = false ∧ loop.hasCanvas = true ∧
        s.activePixels.length ≠ 0) :
    (capture3FramesAsImages loop s cfg extract now renderTime).2.1.isRunning =
      loop.isRunning ∧
    (∀ e2 : ε, ∀ k, k < 3 →
      extract k (renderFrame cfg (setPixelsToFrame s k)) = Except.error e2 →
      (∀ j, j < k →
        (extract j (renderFrame cfg (setPixelsToFrame s j))).isOk = true) →
      (capture3FramesAsImages loop s cfg extract now renderTime).1 =
        Except.error e2) := by
  constructor
  · by_cases hrun : loop.isRunning = true
    · obtain ⟨hd, hc, hcount⟩ := hwf hrun
      unfold capture3FramesAsImages
      simp only [hrun, if_true, if_pos]
      exact start_isRunning_of_pixels _ _ _ _ (stop_isRunning loop)
        (by rw [stop_isDestroyed]; exact hd)
        (by rw [stop_hasCanvas]; exact hc)
        (by rw [foldl_captureStep_length]; exact hcount)
    · have hrun2 : loop.isRunning = false := by
        simpa using hrun
      unfold capture3FramesAsImages
      simp [hrun2]
  · intro e2 k hk herr hprev
    match k, hk with
    | 0, _ =>
        unfold capture3FramesAsImages
        rw [show List.range 3 = [0, 1, 2] from rfl]
        simp only [List.foldl_cons, List.foldl_nil, captureStep_ok, herr,
          captureStep_error]
        split <;> rfl
    | 1, _ =>
        have hp0 := hprev 0 (by norm_num)
        cases h0 : extract 0 (renderFrame cfg (setPixelsToFrame s 0)) with
        | error e3 =>
            rw [h0] at hp0
            simp [Except.isOk, Except.toBool] at hp0
        | ok v0 =>
            unfold capture3FramesAsImages
            rw [show List.range 3 = [0, 1, 2] from rfl]
            simp only [List.foldl_cons, List.foldl_nil, captureStep_ok, h0,
              setPixelsToFrame_setPixelsToFrame, herr, captureStep_error]
            split <;> rfl
    | 2, _ =>
        have hp0 := hprev 0 (by norm_num)
        have hp1 := hprev 1 (by norm_num)
        cases h0 : extract 0 (renderFrame cfg (setPixelsToFrame s 0)) with
        | error e3 =>
            rw [h0] at hp0
            simp [Except.isOk, Except.toBool] at hp0
        | ok v0 =>
            cases h1 : extract 1 (renderFrame cfg (setPixelsToFrame s 1)) with
            | error e3 =>
                rw [h1] at hp1
                simp [Except.isOk, Except.toBool] at hp1
            | ok v1 =>
                unfold capture3FramesAsImages
                rw [show List.range 3 = [0, 1, 2] from rfl]
                simp only [List.foldl_cons, List.foldl_nil, captureStep_ok,
                  h0, h1, setPixelsToFrame_setPixelsToFrame, herr,
                  captureStep_error]
                split <;> rfl

/-! ## Animation loop theorems (claim C9) -/

/-- C9: a live tick (`animate` with the loop running, not destroyed, and a
canvas present) that observes zero pixels in the store transitions the loop
to Stopped, touches nothing, issues no `advanceAll` or `renderFrame`
effect, and schedules no further tick; a tick on a stopped loop does
nothing at all (so no further effects can be issued until something
restarts the loop); and `checkAndStartAnimation` transitions an idle loop
to Running only when the store is non-empty. -/
theorem animationLoop_zero_stop_start_guard (l : AnimationLoop)
    (s : pixelStore) (now rt : Nat) :
    (l.isRunning = true → l.isDestroyed = false → l.hasCanvas = true →
      s.activePixels.length = 0 →
      (l.animate s now rt).loop.isRunning = false ∧
      (l.animate s now rt).effects = [] ∧
      (l.animate s now rt).scheduled = false ∧
      (l.animate s now rt).store = s) ∧
    (l.isRunning = false →
      l.animate s now rt =
        { loop := l, store := s, effects := [], scheduled := false }) ∧
    ((l.checkAndStartAnimation s now rt).loop.isRunning = true →
      l.isRunning = false → 0 < s.activePixels.length) := by
  refine ⟨?_, ?_, ?_⟩
  · intro hr hd hc h0
    unfold AnimationLoop.animate
    rw [if_neg (by simp [hr, hd, hc]), if_pos h0]
    exact ⟨stop_isRunning l, rfl, rfl, rfl⟩
  · intro hr
    unfold AnimationLoop.animate
    rw [if_pos (by simp [hr])]
  · intro hres hr
    by_cases hcnt : 0 < s.activePixels.length
    · exact hcnt
    · exfalso
      have h0 : s.activePixels.length = 0 := Nat.eq_zero_of_not_pos hcnt
      unfold AnimationLoop.checkAndStartAnimation at hres
      by_cases hd : l.isDestroyed = true
      · rw [if_pos hd] at hres
        rw [hr] at hres
        simp at hres
      · rw [if_neg hd] at hres
        rw [if_neg (by simp [h0]), if_neg (by simp [hr])] at hres
        rw [hr] at hres
        simp at hres

/-! ## Frame-index validity (claim C10) -/

/-- C10: for every pixel entity with a non-empty frame list the current
frame index stays a valid index: it is 0 at construction, the plain
`update()` advance maps any index to a valid one by incrementing modulo the
entity's own frame count, the counter-based `update()` keeps a valid index
valid, the capture assignment sets `frameIndex mod` the entity's own frame
count (always in bounds), and `draw`'s lookup `frameData[currentFrame]`
therefore succeeds, also after an advance. -/
theorem wigglePixel_frame_index_in_bounds (p : WigglePixel)
    (hlen : 0 < p.frameData.length) :
    (∀ x y c fd sz o pt,
      (WigglePixel.make x y c fd sz o pt).currentFrame = 0) ∧
    (p.update).currentFrame < p.frameData.length ∧
    (p.currentFrame < p.frameData.length →
      (p.updateCounted).currentFrame < p.frameData.length) ∧
    (∀ k, (p.setCaptureFrame k).currentFrame = k % p.frameData.length ∧
      (p.setCaptureFrame k).currentFrame < p.frameData.length) ∧
    (p.currentFrame < p.frameData.length →
      (p.frameData.get? p.currentFrame).isSome = true) ∧
    (p.frameData.get? ((p.update).currentFrame)).isSome = true := by
  have hne : p.frameData.length ≠ 0 := Nat.pos_iff_ne_zero.mp hlen
  refine ⟨fun _ _ _ _ _ _ _ => rfl, Nat.mod_lt _ hlen, ?_, ?_, ?_, ?_⟩
  · intro hc
    unfold WigglePixel.updateCounted
    dsimp only
    split
    · exact Nat.mod_lt _ hlen
    · exact hc
  · intro k
    constructor
    · show k % (if p.frameData.length = 0 then 3 else p.frameData.length) =
        k % p.frameData.length
      rw [if_neg hne]
    · show k % (if p.frameData.length = 0 then 3 else p.frameData.length) <
        p.frameData.length
      rw [if_neg hne]
      exact Nat.mod_lt _ hlen
  · intro hc
    rw [List.get?_eq_get hc]
    rfl
  · show (p.frameData.get?
      ((p.currentFrame + 1) % p.frameData.length)).isSome = true
    rw [List.get?_eq_get (Nat.mod_lt _ hlen)]
    rfl

/-! ## Concrete instantiations of the theorems with hypotheses -/

/-- Witness for the capacity/FIFO theorem at the empty add sequence and one
concrete add call. -/
theorem addPixel_capacity_fifo_eviction_witness :
    ((pixelStore.runAdds []).addPixel
      ⟨10, 10, "#000000", [[(0, 0)], [(1, 1)], [(-1, -1)]], some 2, 1,
        "pencil", 7⟩).1.activePixels.length ≤ maxTotalPixels :=
  (addPixel_capacity_fifo_eviction []
    ⟨10, 10, "#000000", [[(0, 0)], [(1, 1)], [(-1, -1)]], some 2, 1,
      "pencil", 7⟩).2.2.2.2.2

/-- Witness for the erase theorem on the fresh store. -/
theorem erasePixelsInArea_removes_exactly_in_range_witness :
    (pixelStore.init.erasePixelsInArea 0 0 5).2 =
      (pixelStore.init.activePixels.filter
        (fun e => pixelStore.eraseHit 0 0 5 e.2)).length :=
  (erasePixelsInArea_removes_exactly_in_range pixelStore.init 0 0 5
    storeInv_init).2.2.2.2.1

/-- Witness for the jitter-animator theorem at the empty shape. -/
theorem generate3FrameAnimation_spec_witness :
    generate3FrameAnimation [] (0.8 : ℚ) = [[], [], []] :=
  (generate3FrameAnimation_spec [] 0.8).2.1 rfl

/-- Witness for the one-bucket theorem after one concrete accepted add. -/
theorem store_entity_in_exactly_one_bucket_witness :
    pixelStore.bucketCount
      (pixelStore.runOps [StoreOp.add
        ⟨10, 10, "#000000", [[(0, 0)], [(1, 1)], [(-1, -1)]], some 2, 1,
          "pencil", 7⟩]) (0, 7) = 1 :=
  store_entity_in_exactly_one_bucket
    [StoreOp.add ⟨10, 10, "#000000", [[(0, 0)], [(1, 1)], [(-1, -1)]],
      some 2, 1, "pencil", 7⟩]
    (by
      intro op hop
      rw [List.mem_singleton] at hop
      subst hop
      exact Or.inr (Or.inr rfl))
    ((0, 7), pixelStore.newPixelOf
      ⟨10, 10, "#000000", [[(0, 0)], [(1, 1)], [(-1, -1)]], some 2, 1,
        "pencil", 7⟩)
    (by decide)

/-- Witness for the renderer theorem at a concrete opaque background. -/
theorem renderFrame_spec_witness :
    clearCanvas ⟨100, 100, "#FFFFFF", 1⟩ =
      [CanvasOp.setFillStyle "#FFFFFF", CanvasOp.fillRect 0 0 100 100] := by
  have h := (renderFrame_spec ⟨100, 100, "#FFFFFF", 1⟩ pixelStore.init).2.1
  rw [h]
  decide

/-- Witness for the capture-order theorem with an always-succeeding
extraction on the fresh store. -/
theorem capture3Frames_order_spec_witness :
    (capture3FramesAsImages ⟨false, false, true, false, 0, 0, 2, 0⟩
      pixelStore.init ⟨100, 100, "#FFFFFF", 1⟩
      (fun _ _ => (Except.ok () : Except Unit Unit)) 0 0).1 =
      Except.ok [(), (), ()] :=
  (capture3Frames_order_spec ⟨false, false, true, false, 0, 0, 2, 0⟩
    pixelStore.init ⟨100, 100, "#FFFFFF", 1⟩
    (fun _ _ => (Except.ok () : Except Unit Unit)) 0 0 (fun _ => ())
    (fun _ _ => rfl)).1

/-- Witness for the capture-failure theorem with an extraction that fails
on frame 0. -/
theorem capture3Frames_failure_aborts_restores_witness :
    (capture3FramesAsImages ⟨false, false, true, false, 0, 0, 2, 0⟩
      pixelStore.init ⟨100, 100, "#FFFFFF", 1⟩
      (fun _ _ => (Except.error () : Except Unit Unit)) 0 0).1 =
      Except.error () :=
  (capture3Frames_failure_aborts_restores
    ⟨false, false, true, false, 0, 0, 2, 0⟩ pixelStore.init
    ⟨100, 100, "#FFFFFF", 1⟩
    (fun _ _ => (Except.error () : Except Unit Unit)) 0 0
    (fun h => nomatch h)).2 () 0 (by norm_num) rfl
    (fun j hj => absurd hj (Nat.not_lt_zero j))

/-- Witness for the loop theorem: a running live loop over an empty store
stops on the next tick. -/
theorem animationLoop_zero_stop_start_guard_witness :
    ((⟨true, false, true, false, 0, 0, 2, 0⟩ : AnimationLoop).animate
      pixelStore.init 100 0).loop.isRunning = false :=
  ((animationLoop_zero_stop_start_guard
    ⟨true, false, true, false, 0, 0, 2, 0⟩ pixelStore.init 100 0).1
    rfl rfl rfl rfl).1

/-- Witness for the frame-index theorem at a one-frame entity. -/
theorem wigglePixel_frame_index_in_bounds_witness :
    ((WigglePixel.make 0 0 "#000000" [[(0, 0)]] 1 1 "pencil").update).currentFrame <
      (WigglePixel.make 0 0 "#000000" [[(0, 0)]] 1 1 "pencil").frameData.length :=
  (wigglePixel_frame_index_in_bounds
    (WigglePixel.make 0 0 "#000000" [[(0, 0)]] 1 1 "pencil") (by decide)).2.1
